import Mathlib

/-!
Verification of the sector-analysis (MICMAC-style) analytic engine and
dataset importer.  The definitions below are a shallow embedding of the
TypeScript source: JavaScript numbers are modelled as `JsNum` (exact
rationals plus the three non-finite values `NaN`, `Infinity`,
`-Infinity`), JavaScript arrays as Lean lists, thrown exceptions as
`Except String`, and `undefined`/`null` coalescing (`?? 0`, `?.`) as
explicit defaults.
-/

/-- Model of a JavaScript number: an exact rational (every finite IEEE
double is a decimal, hence rational, value) or one of the non-finite
values `NaN`, `Infinity`, `-Infinity`. -/
inductive JsNum : Type
  | nan : JsNum
  | inf : JsNum
  | ninf : JsNum
  | fin (q : ℚ) : JsNum
  deriving DecidableEq, Repr

namespace JsNum

/-- JavaScript addition on the model: `NaN` absorbs, opposite infinities
give `NaN`, an infinity absorbs finite values, finite values add exactly. -/
def jadd : JsNum → JsNum → JsNum
  | nan, _ => nan
  | _, nan => nan
  | inf, ninf => nan
  | ninf, inf => nan
  | inf, _ => inf
  | _, inf => inf
  | ninf, _ => ninf
  | _, ninf => ninf
  | fin a, fin b => fin (a + b)

/-- JavaScript strict `<`: any comparison involving `NaN` is false. -/
def jlt : JsNum → JsNum → Bool
  | nan, _ => false
  | _, nan => false
  | fin a, fin b => decide (a < b)
  | ninf, ninf => false
  | ninf, _ => true
  | _, ninf => false
  | inf, _ => false
  | fin _, inf => true

/-- JavaScript `>=`: false when `NaN` is involved, otherwise the
negation of `<` (the non-`NaN` values are totally ordered). -/
def jge (a b : JsNum) : Bool :=
  match a, b with
  | nan, _ => false
  | _, nan => false
  | x, y => ! jlt x y

/-- `Number.isFinite`. -/
def isFinite : JsNum → Bool
  | fin _ => true
  | _ => false

/-- JavaScript division of a number by a natural-number count (the only
division the engine performs: dividing a sum by a list length).
Division by zero follows JavaScript (`x / 0` is a signed infinity for
`x ≠ 0` and `NaN` for `0 / 0`), though every call site guards against a
zero count. -/
def jdivNat : JsNum → Nat → JsNum
  | nan, _ => nan
  | inf, _ => inf
  | ninf, _ => ninf
  | fin q, 0 => if q = 0 then nan else if 0 < q then inf else ninf
  | fin q, Nat.succ k => fin (q / (Nat.succ k : ℚ))

end JsNum

open JsNum

/-- Left-fold sum of a list of JavaScript numbers starting from `0`,
matching `values.reduce((acc, v) => acc + v, 0)`. -/
def jsum (l : List JsNum) : JsNum := l.foldl jadd (fin 0)

/-- `matrix[i]?.[j] ?? 0`: read a cell of a possibly ragged row-major
matrix, with a missing row or missing cell coalescing to `0`. -/
def cellAt (matrix : List (List JsNum)) (i j : Nat) : JsNum :=
  (matrix.getD i []).getD j (fin 0)

/-- One iteration of the double loop in `computeXY`: skip the diagonal,
otherwise add the cell to `driving[i]` and to `dependency[j]`.  The
state is the pair (dependency, driving) of accumulator arrays, modelled
as total functions from index to value. -/
def xyStep (matrix : List (List JsNum)) (st : (Nat → JsNum) × (Nat → JsNum))
    (ij : Nat × Nat) : (Nat → JsNum) × (Nat → JsNum) :=
  if ij.1 = ij.2 then st
  else
    let c := cellAt matrix ij.1 ij.2
    (fun j => if j = ij.2 then jadd (st.1 j) c else st.1 j,
     fun i => if i = ij.1 then jadd (st.2 i) c else st.2 i)

/-- The index pairs `(i, j)` visited by the nested `for` loops of
`computeXY`, in visit order. -/
def ijPairs (n : Nat) : List (Nat × Nat) :=
  (List.range n).flatMap (fun i => (List.range n).map (fun j => (i, j)))

/-- Embedding of `computeXY`: starting from two zero-filled accumulator
arrays of length `n = matrix.length`, run the double loop and return the
pair (dependency, driving). -/
def computeXY (matrix : List (List JsNum)) : List JsNum × List JsNum :=
  let n := matrix.length
  let st := (ijPairs n).foldl (xyStep matrix) (fun _ => fin 0, fun _ => fin 0)
  ((List.range n).map st.1, (List.range n).map st.2)

/-- Embedding of `computeCut`: `0` for an empty list, otherwise the sum
(`reduce` with initial value `0`) divided by the length. -/
def computeCut (values : List JsNum) : JsNum :=
  if values.length = 0 then fin 0
  else jdivNat (jsum values) values.length

/-- Embedding of `quadrantLabel (x, y, xCut, yCut)` with JavaScript
comparison semantics (`x` is the dependency, `y` the driving power). -/
def quadrantLabel (x y xCut yCut : JsNum) : String :=
  if jge y yCut && jlt x xCut then "Determinante"
  else if jge y yCut && jge x xCut then "Reguladora"
  else if jlt y yCut && jge x xCut then "Resultado"
  else "Autonoma"

/-- The `ComputeOut` record returned by the engine. -/
structure ComputeOut : Type where
  vars : List String
  dependencia_x : List JsNum
  motricidad_y : List JsNum
  x_cut : JsNum
  y_cut : JsNum
  quadrants : List (String × String)
  deriving DecidableEq, Repr

/-- The `hasValue` scan of `buildPreviewResult`: some off-diagonal cell
is finite and distinct from `0` (the nested loop with early `break` is
an existence test; a missing cell fails `Number.isFinite`, and our
`cellAt` default of `fin 0` fails the `!== 0` test, so both readings of
an absent cell agree). -/
def hasValue (matrix : List (List JsNum)) (n : Nat) : Bool :=
  (List.range n).any fun i =>
    (List.range n).any fun j =>
      i ≠ j && (cellAt matrix i j).isFinite && (cellAt matrix i j != fin 0)

/-- Embedding of `buildPreviewResult`: `none` models the JavaScript
`null` return.  Note the only shape check performed by the source is
`matrix.length !== n`; individual row lengths are never inspected. -/
def buildPreviewResult (vars : List String) (matrix : List (List JsNum)) :
    Option ComputeOut :=
  let n := vars.length
  if n = 0 ∨ matrix.length ≠ n then none
  else if ! hasValue matrix n then none
  else
    let xy := computeXY matrix
    let dependency := xy.1
    let driving := xy.2
    let xCut := computeCut dependency
    let yCut := computeCut driving
    let quadrants := (List.range n).map fun i =>
      (vars.getD i "",
       quadrantLabel (dependency.getD i (fin 0)) (driving.getD i (fin 0)) xCut yCut)
    some
      { vars := vars
        dependencia_x := dependency
        motricidad_y := driving
        x_cut := xCut
        y_cut := yCut
        quadrants := quadrants }

/-- Spec-side description of the dependency entry: the sum over all
`i ≠ j` of `matrix[i][j]` (column `j` without its diagonal cell). -/
def specDependency (matrix : List (List JsNum)) (n j : Nat) : JsNum :=
  jsum (((List.range n).filter (fun i => i ≠ j)).map (fun i => cellAt matrix i j))

/-- Spec-side description of the driving entry: the sum over all
`j ≠ i` of `matrix[i][j]` (row `i` without its diagonal cell). -/
def specDriving (matrix : List (List JsNum)) (n i : Nat) : JsNum :=
  jsum (((List.range n).filter (fun j => j ≠ i)).map (fun j => cellAt matrix i j))

/-- Spec-side arithmetic mean of a vector, `0` when the vector is empty. -/
def specMean (values : List JsNum) : JsNum :=
  if values.length = 0 then fin 0 else jdivNat (jsum values) values.length

/-- Spec-side sum over only the finite off-diagonal cells of column `j`
(what the spec asserts a non-finite cell is equivalent to omitting). -/
def specDependencyFinite (matrix : List (List JsNum)) (n j : Nat) : JsNum :=
  jsum ((((List.range n).filter (fun i => i ≠ j)).map
    (fun i => cellAt matrix i j)).filter JsNum.isFinite)

/-- The concrete scenario from the spec: variables A, B, C with matrix
rows (0,2,0), (0,0,5), (1,0,0). -/
def exampleMatrix : List (List JsNum) :=
  [[fin 0, fin 2, fin 0], [fin 0, fin 0, fin 5], [fin 1, fin 0, fin 0]]
/-- The engine result on `exampleMatrix`. -/
def exampleOut : ComputeOut :=
  { vars := ["A", "B", "C"]
    dependencia_x := [fin 1, fin 2, fin 5]
    motricidad_y := [fin 2, fin 5, fin 1]
    x_cut := fin (8 / 3)
    y_cut := fin (8 / 3)
    quadrants := [("A", "Autonoma"), ("B", "Determinante"), ("C", "Resultado")] }
/-- A ragged two-row matrix: the outer length is 2 but the second row
has only one cell, so it is not square. -/
def raggedMatrix : List (List JsNum) := [[fin 0, fin 1], [fin 5]]
/-- A matrix with a `NaN` off-diagonal cell next to a nonzero finite one. -/
def nanMatrix : List (List JsNum) := [[fin 0, JsNum.nan], [fin 1, fin 0]]

/-- The three outcomes of a `loadGraph` call that are visible in the
embedding: do nothing (falsy project id), report a user-facing error
message while clearing the stored graph (`setGraphError(...)` plus
`setGraph(null)`), or proceed to the remote fetch with the validated
parameters. -/
inductive LoadGraphAction : Type
  | noop : LoadGraphAction
  | reportError (msg : String) : LoadGraphAction
  | requestFetch (minWeight : JsNum) (directed : Bool) : LoadGraphAction
  deriving DecidableEq, Repr

/-- JavaScript truthiness test `!projectId` for a `number | null` id:
`null` and `0` are falsy. -/
def jsFalsyId : Option Nat → Bool
  | none => true
  | some 0 => true
  | some (Nat.succ _) => false

/-- Embedding of the decision logic of `loadGraph` (the remote request
itself is out of scope): bail out silently on a falsy project id,
report `"El umbral debe ser un nAmero positivo."` (the source's
literal message) and clear the graph when the threshold is not finite
or is negative, otherwise fetch. -/
def loadGraph (projectId : Option Nat) (minWeight : JsNum) (directed : Bool) :
    LoadGraphAction :=
  if jsFalsyId projectId then LoadGraphAction.noop
  else if ! minWeight.isFinite || jlt minWeight (fin 0) then
    LoadGraphAction.reportError "El umbral debe ser un nAmero positivo."
  else LoadGraphAction.requestFetch minWeight directed

/-- Embedding of `setCell`: map over rows and cells, replacing cell
`(i, j)` with the new value, except that a diagonal target stores `0`.
Out-of-range indices leave the matrix unchanged (the `map` never visits
them); no error is ever reported. -/
def setCell (prev : List (List JsNum)) (i j : Nat) (value : JsNum) :
    List (List JsNum) :=
  prev.mapIdx fun rIndex row =>
    row.mapIdx fun cIndex cell =>
      if rIndex = i ∧ cIndex = j then (if i = j then fin 0 else value) else cell

/-- Embedding of the matrix-resize effect that runs when
`variables.length` changes: rebuild an `n × n` matrix keeping previous
off-diagonal values (missing ones default to `0`) and forcing the
diagonal to `0`. -/
def resizeMatrix (n : Nat) (prev : List (List JsNum)) : List (List JsNum) :=
  (List.range n).map fun i =>
    (List.range n).map fun j =>
      if i = j then fin 0 else cellAt prev i j

/-- Whitespace for the purposes of JavaScript `trim` (the characters
this application can actually meet in tabular text). -/
def isJsWhitespace (c : Char) : Bool :=
  c = ' ' || c = '\t' || c = '\n' || c = '\r'

/-- JavaScript `s.trim()` on a character list. -/
def jsTrimChars (cs : List Char) : List Char :=
  ((cs.dropWhile isJsWhitespace).reverse.dropWhile isJsWhitespace).reverse

/-- JavaScript `s.trim()`. -/
def jsTrim (s : String) : String := String.mk (jsTrimChars s.data)

/-- JavaScript `s.toLowerCase()` (character-wise lowering, which is all
the recognized header names need). -/
def jsToLower (s : String) : String := String.mk (s.data.map Char.toLower)

/-- Replace the first occurrence of `sep` by `rep`. -/
def replaceFirstChar (sep rep : Char) : List Char → List Char
  | [] => []
  | c :: cs => if c = sep then rep :: cs else c :: replaceFirstChar sep rep cs

/-- JavaScript `s.replace(",", ".")`: only the FIRST comma is replaced. -/
def jsReplaceFirstComma (s : String) : String :=
  String.mk (replaceFirstChar ',' '.' s.data)

/-- The decimal digit character for `d < 10`. -/
def digitChar (d : Nat) : Char := Char.ofNat (48 + d)

/-- Is `c` one of the characters 0-9. -/
def isDigitChar (c : Char) : Bool := decide ('0' ≤ c) && decide (c ≤ '9')

/-- Numeric value of a digit character. -/
def digVal (c : Char) : Nat := c.toNat - 48

/-- Little-endian base-10 digits of a natural number (`[]` for 0). -/
def digitsLE (n : Nat) : List Nat :=
  if h : n = 0 then []
  else (n % 10) :: digitsLE (n / 10)
  termination_by n
  decreasing_by exact Nat.div_lt_self (Nat.pos_of_ne_zero h) (by norm_num)

/-- Most-significant-first decimal digit characters of a natural number. -/
def natCharsMSB (n : Nat) : List Char :=
  if n = 0 then ['0'] else (digitsLE n).reverse.map digitChar

/-- Value of a most-significant-first digit-character list. -/
def valMSB (l : List Char) : Nat := l.foldl (fun a c => 10 * a + digVal c) 0

/-- Value of a little-endian digit list. -/
def valLE : List Nat → Nat
  | [] => 0
  | d :: ds => d + 10 * valLE ds

/-- Multiplicity of `p` in `n` computed with fuel (`n` itself suffices). -/
def pMultAux : Nat → Nat → Nat → Nat
  | 0, _, _ => 0
  | Nat.succ fuel, p, n =>
      if 2 ≤ p ∧ 0 < n ∧ n % p = 0 then pMultAux fuel p (n / p) + 1 else 0

/-- Multiplicity of the prime `p` in `n`. -/
def pMult (p n : Nat) : Nat := pMultAux n p n

/-- An exponent `k` with `d ∣ 10 ^ k` whenever `d` has only the prime
factors 2 and 5 (the denominators of JavaScript number values). -/
def decExp (d : Nat) : Nat := max (pMult 2 d) (pMult 5 d)

/-- The unsigned part of the decimal rendering of `q`: the digits of
`N = |q.num| * (10 ^ k / q.den)` (where `k = decExp q.den`), left-padded
with zeros to at least `k + 1` digits, with a decimal point before the
last `k` of them when `k` is nonzero. -/
def numBody (q : ℚ) : List Char :=
  let k := decExp q.den
  let N := q.num.natAbs * (10 ^ k / q.den)
  let ds := natCharsMSB N
  let pad := List.replicate (k + 1 - ds.length) '0' ++ ds
  pad.take (pad.length - k) ++
    (if k = 0 then [] else '.' :: pad.drop (pad.length - k))

/-- Decimal rendering of a rational whose denominator divides a power
of ten: the model of JavaScript number-to-string used for cells written
by the serializer. -/
def numToStrChars (q : ℚ) : List Char :=
  if q < 0 then '-' :: numBody q else numBody q

/-- String form of `numToStrChars`. -/
def numToStr (q : ℚ) : String := String.mk (numToStrChars q)

/-- Parse an unsigned decimal literal: digits, optionally followed by a
point and further digits, with at least one digit present overall. -/
def parseDecCore (cs : List Char) : Option ℚ :=
  let ip := cs.takeWhile isDigitChar
  let rest := cs.dropWhile isDigitChar
  match rest with
  | [] => if ip.isEmpty then none else some ((valMSB ip : ℚ))
  | '.' :: fp =>
      if fp.all isDigitChar && !(ip.isEmpty && fp.isEmpty) then
        some ((valMSB ip : ℚ) + (valMSB fp : ℚ) / (10 : ℚ) ^ fp.length)
      else none
  | _ => none

/-- Parse a signed decimal literal: an optional leading sign, then an
unsigned literal (`parseDecCore [] = none`, so the empty-list default
head is harmless). -/
def parseDecChars (cs : List Char) : Option ℚ :=
  if cs.headD ' ' = '-' then (parseDecCore cs.tail).map (fun q => -q)
  else if cs.headD ' ' = '+' then parseDecCore cs.tail
  else parseDecCore cs

/-- Modelled from the spec: JavaScript `Number()` (a host builtin, not
part of the repository) restricted to the plain decimal literals this
application produces — optional sign, digits, at most one decimal
point.  The empty or all-whitespace string gives 0, anything else that
does not parse gives `NaN`. -/
def jsNumber (s : String) : JsNum :=
  let t := jsTrimChars s.data
  if t.isEmpty then fin 0
  else
    match parseDecChars t with
    | some q => fin q
    | none => JsNum.nan

/-- An untyped spreadsheet cell as seen by the importer (`any` in the
source): a string, a number, `null`, `undefined`, or a boolean. -/
inductive Cell : Type
  | str (s : String) : Cell
  | num (v : JsNum) : Cell
  | nullc : Cell
  | undef : Cell
  | boolc (b : Bool) : Cell
  deriving DecidableEq, Repr

/-- JavaScript `String(cell ?? "")` (also used for `String(cell)` at
call sites that have already excluded `null`/`undefined`). -/
def cellText : Cell → String
  | Cell.str s => s
  | Cell.num (fin q) => numToStr q
  | Cell.num JsNum.nan => "NaN"
  | Cell.num JsNum.inf => "Infinity"
  | Cell.num JsNum.ninf => "-Infinity"
  | Cell.nullc => ""
  | Cell.undef => ""
  | Cell.boolc true => "true"
  | Cell.boolc false => "false"

/-- The per-cell blank test of the body-row filter:
`cell !== null && cell !== undefined && String(cell).trim() !== ""`. -/
def cellNonBlank : Cell → Bool
  | Cell.nullc => false
  | Cell.undef => false
  | c => ! (jsTrimChars (cellText c).data).isEmpty

/-- `row.some(...)`: a row is kept when some cell is non-blank. -/
def rowNonBlank (row : List Cell) : Bool := row.any cellNonBlank

/-- The source's "Valor no numerico" message with the human-facing
coordinates the caller passes (`rowIndex + 2`, `colIndex + 2`). -/
def nonNumericMsg (rowIndex colIndex : Nat) : String :=
  "Valor no numerico en la posicion (" ++ toString rowIndex ++ ", " ++
    toString colIndex ++ ")."

/-- Embedding of `normalizeNumberCell`: finite numbers pass through;
strings are trimmed, have their first comma replaced by a point and are
parsed, an empty normalized string giving 0; `null`/`undefined` (and
the unreachable `cell === ""` re-check) give 0; everything else —
including non-finite numbers — throws the "Valor no numerico" error. -/
def normalizeNumberCell (cell : Cell) (rowIndex colIndex : Nat) : Except String ℚ :=
  match cell with
  | Cell.num (fin q) => Except.ok q
  | Cell.str s =>
      let normalized := jsReplaceFirstComma (jsTrim s)
      if normalized.data.isEmpty then Except.ok 0
      else
        match jsNumber normalized with
        | fin q => Except.ok q
        | _ => if s = "" then Except.ok 0 else Except.error (nonNumericMsg rowIndex colIndex)
  | Cell.nullc => Except.ok 0
  | Cell.undef => Except.ok 0
  | _ => Except.error (nonNumericMsg rowIndex colIndex)

/-- Embedding of `parseVariablesRows`: lower-cased trimmed header, a
recognized name column (`name`/`variable`/`nombre`) selects its index
and drops the header row, otherwise column 0 of every row is used;
blank names are dropped silently. -/
def parseVariablesRows (rows : List (List Cell)) : List String :=
  if rows.isEmpty then []
  else
    let header := (rows.headD []).map fun c => jsToLower (jsTrim (cellText c))
    let found := header.findIdx? fun h => h == "name" || h == "variable" || h == "nombre"
    let dataRows := match found with
      | some _ => rows.drop 1
      | none => rows
    let nameIdx := found.getD 0
    (dataRows.map fun row => jsTrim (cellText (row.getD nameIdx Cell.undef))).filter
      fun v => ! v.data.isEmpty

/-- The validated `{variables, matrix}` shape (`variables` is reserved
in Lean, so the field is `vars`). -/
structure ParsedDataset : Type where
  vars : List String
  matrix : List (List ℚ)
  deriving DecidableEq, Repr

/-- Header error: `Asigna un nombre a la variable (idx+1) en la cabecera.` -/
def headerErrMsg (idx : Nat) : String :=
  "Asigna un nombre a la variable " ++ toString (idx + 1) ++ " en la cabecera."

/-- Count error: `La matriz debe ser NxN; se encontraron M filas con datos.` -/
def countErrMsg (n m : Nat) : String :=
  "La matriz debe ser " ++ toString n ++ "x" ++ toString n ++
    "; se encontraron " ++ toString m ++ " filas con datos."

/-- Row-label mismatch error of `parseMatrixTable`. -/
def rowLabelErrMsg (rowName expected : String) (rowIndex : Nat) : String :=
  "El nombre de fila \"" ++ rowName ++ "\" no coincide con \"" ++ expected ++
    "\" en la fila " ++ toString (rowIndex + 2) ++ "."

/-- The header `map` of `parseMatrixTable`: the first blank name (in
order) throws, otherwise the names pass through unchanged. -/
def validateHeader : Nat → List String → Except String (List String)
  | _, [] => Except.ok []
  | idx, name :: rest =>
      if name = "" then Except.error (headerErrMsg idx)
      else do
        let tail ← validateHeader (idx + 1) rest
        Except.ok (name :: tail)

/-- The inner `variables.map((_, colIndex) => normalizeNumberCell(...))`
of a data row: `colIndex` counts from `c`, `k` columns remain. -/
def parseRowValues (row : List Cell) (rowIndex : Nat) : Nat → Nat → Except String (List ℚ)
  | _, 0 => Except.ok []
  | c, Nat.succ k => do
      let v ← normalizeNumberCell (row.getD (c + 1) Cell.undef) (rowIndex + 2) (c + 2)
      let rest ← parseRowValues row rowIndex (c + 1) k
      Except.ok (v :: rest)

/-- The body `map` of `parseMatrixTable`: check the optional row label
against the header name at the same position, then parse the row's
cells (absent cells read as `undefined` and normalize to 0). -/
def parseBodyRows (vars2 : List String) : List (List Cell) → Nat → Except String (List (List ℚ))
  | [], _ => Except.ok []
  | row :: rest, rowIndex =>
      let rowName := jsTrim (cellText (row.getD 0 Cell.undef))
      if rowName ≠ "" ∧ rowName ≠ vars2.getD rowIndex "" then
        Except.error (rowLabelErrMsg rowName (vars2.getD rowIndex "") rowIndex)
      else do
        let values ← parseRowValues row rowIndex 0 vars2.length
        let tail ← parseBodyRows vars2 rest (rowIndex + 1)
        Except.ok (values :: tail)

/-- Embedding of `parseMatrixTable`: header = first row minus its first
cell, trimmed; blank header names rejected; the non-blank data rows
must number exactly `header.length`; row labels, when present, must
match the header; each data cell is normalized.  NOTE: the diagonal is
stored as parsed — it is NOT forced to 0. -/
def parseMatrixTable (rows : List (List Cell)) : Except String ParsedDataset :=
  if rows.isEmpty then Except.error "El archivo no contiene datos."
  else
    let headerCells := ((rows.headD []).drop 1).map fun c => jsTrim (cellText c)
    if headerCells.isEmpty then
      Except.error "La primera fila debe listar los nombres de variables."
    else do
      let vars2 ← validateHeader 0 headerCells
      let body := (rows.drop 1).filter rowNonBlank
      if body.length ≠ vars2.length then
        Except.error (countErrMsg vars2.length body.length)
      else do
        let matrix ← parseBodyRows vars2 body 0
        Except.ok { vars := vars2, matrix := matrix }

/-- Split a character list at every occurrence of `sep`, keeping empty
fields (the inverse of `intercalateChar` on separator-free fields). -/
def splitOnChar (sep : Char) : List Char → List (List Char)
  | [] => [[]]
  | c :: cs =>
      let r := splitOnChar sep cs
      if c = sep then [] :: r else (c :: r.headD []) :: r.tail

/-- Join fields with a separator (JavaScript `Array.join`). -/
def intercalateChar (sep : Char) : List (List Char) → List Char
  | [] => []
  | [f] => f
  | f :: rest => f ++ sep :: intercalateChar sep rest

/-- Modelled from the spec: the tabular reader (the XLSX library's CSV
parsing with `header: 1, blankrows: false`, external to the repository)
abstracted as "rows of untyped cells in": split the text into lines on
newline and fields on comma, take every field as a string cell, and
drop the rows whose cells are all blank. -/
def readDelimited (text : String) : List (List Cell) :=
  ((splitOnChar '\n' text.data).map fun line =>
    (splitOnChar ',' line).map fun f => Cell.str (String.mk f)).filter rowNonBlank

/-- Embedding of `parseCsvVariables`. -/
def parseCsvVariables (text : String) : Except String (List String) :=
  let names := parseVariablesRows (readDelimited text)
  if names.isEmpty then Except.error "variables.csv no tiene nombres validos."
  else Except.ok names

/-- Embedding of `parseCsvMatrix`. -/
def parseCsvMatrix (text : String) : Except String ParsedDataset :=
  parseMatrixTable (readDelimited text)

/-- Embedding of the CSV branch of `handleImportFiles` (the
`parseDataset` of the spec): parse both files, require equal variable
counts and identical headers, and return the dataset assembled from the
variables file's names and the matrix file's numbers. -/
def parseDatasetCsv (varsText matrixText : String) : Except String ParsedDataset := do
  let names ← parseCsvVariables varsText
  let parsed ← parseCsvMatrix matrixText
  if names.length ≠ parsed.vars.length then
    Except.error "Los archivos CSV no tienen la misma cantidad de variables."
  else if (List.range parsed.vars.length).any
      (fun idx => parsed.vars.getD idx "" != names.getD idx "") then
    Except.error "Los encabezados de matrix.csv deben coincidir con variables.csv en orden y nombre."
  else Except.ok { vars := names, matrix := parsed.matrix }

/-- Embedding of `datasetToCsvFiles`: the contents of `variables.csv`
(a `name` header line then one name per line) and `matrix.csv` (a
header line with a leading empty field, then one labeled row per
variable), rows joined with newlines and fields with commas, numbers
rendered by `numToStr`. -/
def datasetToCsvFiles (data : ParsedDataset) : String × String :=
  let varsContent := intercalateChar '\n' ("name".data :: data.vars.map String.data)
  let headerLine := intercalateChar ',' ([] :: data.vars.map String.data)
  let body := data.vars.mapIdx fun idx name =>
    intercalateChar ',' (name.data ::
      ((data.matrix.getD idx []).map fun v => (numToStr v).data))
  let matrixContent := intercalateChar '\n' (headerLine :: body)
  (String.mk varsContent, String.mk matrixContent)

/-- A CSV-safe variable name: nonempty, trim-invariant, and free of the
separators the serializer uses. -/
def validName (s : String) : Prop :=
  s ≠ "" ∧ jsTrim s = s ∧ ',' ∉ s.data ∧ '\n' ∉ s.data

/-- A dataset in the validated shape (the spec's "valid parsed
dataset"): at least one variable, CSV-safe names, a square matrix of
decimal rationals (the values JavaScript numbers can hold), and a zero
diagonal (the spec's invariant). -/
def ValidDataset (d : ParsedDataset) : Prop :=
  0 < d.vars.length ∧
  d.matrix.length = d.vars.length ∧
  (∀ row ∈ d.matrix, row.length = d.vars.length) ∧
  (∀ name ∈ d.vars, validName name) ∧
  (∀ row ∈ d.matrix, ∀ q ∈ row, q.den ∣ 10 ^ decExp q.den) ∧
  (∀ i < d.vars.length, (d.matrix.getD i []).getD i 0 = 0)

deriving instance DecidableEq for Except

/-- The matrix table of the concrete C7 scenario: header
`["", "A", "B"]` and a single (non-blank) data row. -/
def shortCountTable : List (List Cell) :=
  [[Cell.str "", Cell.str "A", Cell.str "B"],
   [Cell.str "A", Cell.num (fin 1), Cell.num (fin 2)]]

/-- A matrix table whose data rows are shorter than the header
requires: row `A` misses its last cell, row `B` has only its label. -/
def shortRowTable : List (List Cell) :=
  [[Cell.str "", Cell.str "A", Cell.str "B"],
   [Cell.str "A", Cell.num (fin 1)],
   [Cell.str "B"]]

/-- The dataset produced from `shortRowTable`: full-length rows, the
missing cells read as 0. -/
def shortRowDataset : ParsedDataset :=
  { vars := ["A", "B"], matrix := [[1, 0], [0, 0]] }

/-- A matrix table carrying the nonzero value 5 on the diagonal. -/
def diagTable : List (List Cell) :=
  [[Cell.str "", Cell.str "A", Cell.str "B"],
   [Cell.str "A", Cell.num (fin 5), Cell.num (fin 1)],
   [Cell.str "B", Cell.num (fin 2), Cell.num (fin 0)]]

/-- A concrete valid dataset exercising fractional and negative values. -/
def exampleDataset : ParsedDataset :=
  { vars := ["A", "B"], matrix := [[0, 3 / 2], [-2, 0]] }

-- ===================== Theorems =====================

section ComputeXYLemmas

variable (m : List (List JsNum))

lemma foldl_xyStep_fst (ps : List (Nat × Nat)) (st : (Nat → JsNum) × (Nat → JsNum))
    (j : Nat) :
    (ps.foldl (xyStep m) st).1 j =
      (ps.filter (fun p => p.1 != p.2 && p.2 == j)).foldl
        (fun acc p => jadd acc (cellAt m p.1 p.2)) (st.1 j) := by
  induction ps generalizing st with
  | nil => rfl
  | cons p ps ih =>
      rcases p with ⟨a, b⟩
      by_cases hab : a = b
      · have hstep : xyStep m st (a, b) = st := by simp [xyStep, hab]
        have hflt : ((a, b).1 != (a, b).2 && ((a, b).2 == j)) = false := by simp [hab]
        simp only [List.foldl_cons, List.filter_cons, hstep, hflt, Bool.false_eq_true,
          if_false]
        exact ih st
      · have hstep1 : (xyStep m st (a, b)).1 =
            fun x => if x = b then jadd (st.1 x) (cellAt m a b) else st.1 x := by
          simp [xyStep, hab]
        by_cases hbj : b = j
        · subst hbj
          have hflt : ((a, b).1 != (a, b).2 && ((a, b).2 == b)) = true := by simp [hab]
          simp only [List.foldl_cons, List.filter_cons, hflt, if_true]
          rw [ih, hstep1]
          simp
        · have hflt : ((a, b).1 != (a, b).2 && ((a, b).2 == j)) = false := by simp [hbj]
          simp only [List.foldl_cons, List.filter_cons, hflt, Bool.false_eq_true,
            if_false]
          rw [ih, hstep1]
          simp [Ne.symm hbj]

lemma foldl_xyStep_snd (ps : List (Nat × Nat)) (st : (Nat → JsNum) × (Nat → JsNum))
    (i : Nat) :
    (ps.foldl (xyStep m) st).2 i =
      (ps.filter (fun p => p.1 != p.2 && p.1 == i)).foldl
        (fun acc p => jadd acc (cellAt m p.1 p.2)) (st.2 i) := by
  induction ps generalizing st with
  | nil => rfl
  | cons p ps ih =>
      rcases p with ⟨a, b⟩
      by_cases hab : a = b
      · have hstep : xyStep m st (a, b) = st := by simp [xyStep, hab]
        have hflt : ((a, b).1 != (a, b).2 && ((a, b).1 == i)) = false := by simp [hab]
        simp only [List.foldl_cons, List.filter_cons, hstep, hflt, Bool.false_eq_true,
          if_false]
        exact ih st
      · have hstep2 : (xyStep m st (a, b)).2 =
            fun x => if x = a then jadd (st.2 x) (cellAt m a b) else st.2 x := by
          simp [xyStep, hab]
        by_cases hai : a = i
        · subst hai
          have hflt : ((a, b).1 != (a, b).2 && ((a, b).1 == a)) = true := by simp [hab]
          simp only [List.foldl_cons, List.filter_cons, hflt, if_true]
          rw [ih, hstep2]
          simp
        · have hflt : ((a, b).1 != (a, b).2 && ((a, b).1 == i)) = false := by simp [hai]
          simp only [List.foldl_cons, List.filter_cons, hflt, Bool.false_eq_true,
            if_false]
          rw [ih, hstep2]
          simp [Ne.symm hai]

lemma filter_singleton_of_nodup (l : List Nat) (hl : l.Nodup) (j : Nat) (q : Nat → Bool) :
    l.filter (fun x => q x && (x == j)) = if j ∈ l ∧ q j = true then [j] else [] := by
  induction l with
  | nil => simp
  | cons a l ih =>
      rcases List.nodup_cons.mp hl with ⟨ha, hl'⟩
      by_cases haj : a = j
      · subst haj
        have hrest : l.filter (fun x => q x && (x == a)) = [] := by
          rw [List.filter_eq_nil_iff]
          intro x hx
          simp only [Bool.and_eq_true, beq_iff_eq, not_and]
          intro _ hxa
          exact absurd (hxa ▸ hx) ha
        by_cases hq : q a = true
        · simp [List.filter_cons, hq, hrest]
        · simp [List.filter_cons, hq, hrest]
      · have hc : (q a && (a == j)) = false := by simp [haj]
        have hmem : j ∈ a :: l ↔ j ∈ l := by
          constructor
          · intro h
            rcases List.mem_cons.mp h with h1 | h2
            · exact absurd h1.symm haj
            · exact h2
          · intro h
            exact List.mem_cons_of_mem a h
        simp only [List.filter_cons, hc, Bool.false_eq_true, if_false, ih hl']
        by_cases hj : j ∈ l ∧ q j = true
        · rw [if_pos hj, if_pos ⟨hmem.mpr hj.1, hj.2⟩]
        · rw [if_neg hj, if_neg (fun hc2 => hj ⟨hmem.mp hc2.1, hc2.2⟩)]

lemma flatMap_if_eq (is : List Nat) (hnd : is.Nodup) (i : Nat) (L : Nat → List α) :
    (is.flatMap fun x => if x = i then L x else []) = if i ∈ is then L i else [] := by
  induction is with
  | nil => simp
  | cons a is ih =>
      rcases List.nodup_cons.mp hnd with ⟨ha, hnd'⟩
      by_cases hai : a = i
      · subst hai
        have : (is.flatMap fun x => if x = a then L x else []) = [] := by
          rw [List.flatMap_eq_nil_iff]
          intro x hx
          by_cases hxa : x = a
          · exact absurd (hxa ▸ hx) ha
          · simp [hxa]
        simp [List.flatMap_cons, this]
      · simp [List.flatMap_cons, hai, ih hnd', Ne.symm]

end ComputeXYLemmas

lemma filter_flatMap_comm (l : List α) (f : α → List β) (P : β → Bool) :
    (l.flatMap f).filter P = l.flatMap (fun a => (f a).filter P) := by
  induction l with
  | nil => simp
  | cons a l ih => simp [List.flatMap_cons, List.filter_append, ih]

lemma flatMap_if_filter (l : List α) (q : α → Bool) (g : α → β) :
    (l.flatMap fun x => if q x then [g x] else []) = (l.filter q).map g := by
  induction l with
  | nil => simp
  | cons a l ih =>
      by_cases hq : q a
      · simp [List.flatMap_cons, List.filter_cons, hq, ih]
      · simp [List.flatMap_cons, List.filter_cons, hq, ih]

lemma ijPairs_filter_dep (n j : Nat) (hj : j < n) :
    (ijPairs n).filter (fun p => p.1 != p.2 && p.2 == j) =
      ((List.range n).filter (fun i => i != j)).map (fun i => (i, j)) := by
  rw [ijPairs, filter_flatMap_comm]
  have hinner : ∀ i : Nat,
      ((List.range n).map (fun x => (i, x))).filter (fun p => p.1 != p.2 && p.2 == j) =
        if (i != j) = true then [(i, j)] else [] := by
    intro i
    rw [List.filter_map]
    have : ((fun p : Nat × Nat => p.1 != p.2 && p.2 == j) ∘ fun x => (i, x)) =
        fun x => (i != x) && (x == j) := rfl
    rw [this, filter_singleton_of_nodup _ (List.nodup_range n) j (fun x => i != x)]
    by_cases hij : (i != j) = true
    · rw [if_pos ⟨List.mem_range.mpr hj, hij⟩, if_pos hij]
      rfl
    · rw [if_neg (fun hc => hij hc.2), if_neg hij]
      rfl
  calc (List.range n).flatMap
        (fun a => ((List.range n).map (fun x => (a, x))).filter
          (fun p => p.1 != p.2 && p.2 == j))
      = (List.range n).flatMap (fun a => if (a != j) = true then [(a, j)] else []) := by
        apply List.flatMap_congr
        intro a _
        exact hinner a
    _ = ((List.range n).filter (fun i => i != j)).map (fun i => (i, j)) := by
        rw [flatMap_if_filter]

lemma ijPairs_filter_drv (n i : Nat) (hi : i < n) :
    (ijPairs n).filter (fun p => p.1 != p.2 && p.1 == i) =
      ((List.range n).filter (fun j => i != j)).map (fun j => (i, j)) := by
  rw [ijPairs, filter_flatMap_comm]
  have hinner : ∀ a : Nat,
      ((List.range n).map (fun x => (a, x))).filter (fun p => p.1 != p.2 && p.1 == i) =
        if a = i then ((List.range n).filter (fun x => a != x)).map (fun x => (a, x))
        else [] := by
    intro a
    rw [List.filter_map]
    have : ((fun p : Nat × Nat => p.1 != p.2 && p.1 == i) ∘ fun x => (a, x)) =
        fun x => (a != x) && (a == i) := rfl
    rw [this]
    by_cases hai : a = i
    · subst hai
      rw [if_pos rfl]
      congr 1
      apply List.filter_congr
      intro x _
      simp
    · rw [if_neg hai]
      have : (List.range n).filter (fun x => (a != x) && (a == i)) = [] := by
        rw [List.filter_eq_nil_iff]
        intro x _
        simp [hai]
      rw [this]
      rfl
  calc (List.range n).flatMap
        (fun a => ((List.range n).map (fun x => (a, x))).filter
          (fun p => p.1 != p.2 && p.1 == i))
      = (List.range n).flatMap
          (fun a => if a = i
            then ((List.range n).filter (fun x => a != x)).map (fun x => (a, x))
            else []) := by
        apply List.flatMap_congr
        intro a _
        exact hinner a
    _ = ((List.range n).filter (fun j => i != j)).map (fun j => (i, j)) := by
        rw [flatMap_if_eq _ (List.nodup_range n) i]
        rw [if_pos (List.mem_range.mpr hi)]

lemma computeXY_fst_length (m : List (List JsNum)) :
    (computeXY m).1.length = m.length := by
  simp [computeXY]

lemma computeXY_snd_length (m : List (List JsNum)) :
    (computeXY m).2.length = m.length := by
  simp [computeXY]

lemma getD_map_range (f : Nat → α) (n j : Nat) (hj : j < n) (d : α) :
    ((List.range n).map f).getD j d = f j := by
  simp [List.getD_eq_getElem?_getD, List.getElem?_map, List.getElem?_range hj]

/-- The dependency entry computed by the double loop equals the spec's
column sum over `i ≠ j`. -/
lemma computeXY_dep (m : List (List JsNum)) (j : Nat) (hj : j < m.length) :
    (computeXY m).1.getD j (fin 0) = specDependency m m.length j := by
  rw [computeXY]
  simp only
  rw [getD_map_range _ _ _ hj]
  rw [foldl_xyStep_fst m _ _ j, ijPairs_filter_dep m.length j hj]
  rw [List.foldl_map]
  rw [specDependency, jsum, List.foldl_map]
  congr 1
  apply List.filter_congr
  intro x _
  by_cases h : x = j <;> simp [h]

/-- The driving entry computed by the double loop equals the spec's row
sum over `j ≠ i`. -/
lemma computeXY_drv (m : List (List JsNum)) (i : Nat) (hi : i < m.length) :
    (computeXY m).2.getD i (fin 0) = specDriving m m.length i := by
  rw [computeXY]
  simp only
  rw [getD_map_range _ _ _ hi]
  rw [foldl_xyStep_snd m _ _ i, ijPairs_filter_drv m.length i hi]
  rw [List.foldl_map]
  rw [specDriving, jsum, List.foldl_map]
  congr 1
  apply List.filter_congr
  intro x _
  by_cases h : x = i
  · subst h
    simp
  · have h2 : i ≠ x := fun hh => h hh.symm
    simp [h, h2]

/-- `computeCut` and the spec's mean are the same function. -/
lemma computeCut_eq_specMean : computeCut = specMean := rfl

/-- Destructuring an accepted preview computation: the source returns
the record built from `computeXY` and `computeCut`, after checking the
variable count, the outer matrix length and the `hasValue` scan. -/
lemma buildPreviewResult_some_spec (vars : List String) (matrix : List (List JsNum))
    (out : ComputeOut) (h : buildPreviewResult vars matrix = some out) :
    vars.length ≠ 0 ∧ matrix.length = vars.length ∧
      out.dependencia_x = (computeXY matrix).1 ∧
      out.motricidad_y = (computeXY matrix).2 ∧
      out.x_cut = computeCut (computeXY matrix).1 ∧
      out.y_cut = computeCut (computeXY matrix).2 := by
  simp only [buildPreviewResult] at h
  by_cases h1 : vars.length = 0 ∨ matrix.length ≠ vars.length
  · rw [if_pos h1] at h
    exact absurd h (by simp)
  · rw [if_neg h1] at h
    push_neg at h1
    by_cases h2 : hasValue matrix vars.length = true
    · simp only [h2, Bool.not_true, Bool.false_eq_true, if_false] at h
      injection h with h
      subst h
      exact ⟨h1.1, h1.2, rfl, rfl, rfl, rfl⟩
    · simp only [Bool.not_eq_true] at h2
      simp only [h2, Bool.not_false, if_true] at h
      exact absurd h (by simp)

/-- C1: for every variable list and n×n matrix the engine accepts, each
dependency entry is the column sum over `i ≠ j`, each driving entry is
the row sum over `j ≠ i` (the diagonal never contributes, whatever it
holds, because the loop skips `i = j`), and `xCut`/`yCut` are the
arithmetic means of the dependency and driving vectors, the mean of an
empty vector being `0`. -/
theorem C1_dependency_driving_cuts (vars : List String) (matrix : List (List JsNum))
    (out : ComputeOut)
    (hsq : ∀ row ∈ matrix, row.length = vars.length)
    (h : buildPreviewResult vars matrix = some out) :
    (∀ j < vars.length,
      out.dependencia_x.getD j (fin 0) = specDependency matrix vars.length j) ∧
    (∀ i < vars.length,
      out.motricidad_y.getD i (fin 0) = specDriving matrix vars.length i) ∧
    out.x_cut = specMean out.dependencia_x ∧
    out.y_cut = specMean out.motricidad_y ∧
    specMean [] = fin 0 := by
  obtain ⟨hn, hlen, hdep, hdrv, hx, hy⟩ := buildPreviewResult_some_spec vars matrix out h
  refine ⟨?_, ?_, ?_, ?_, rfl⟩
  · intro j hj
    rw [hdep, computeXY_dep matrix j (hlen ▸ hj), hlen]
  · intro i hi
    rw [hdrv, computeXY_drv matrix i (hlen ▸ hi), hlen]
  · rw [hx, hdep, computeCut_eq_specMean]
  · rw [hy, hdrv, computeCut_eq_specMean]



theorem C1_witness :
    (∀ j < 3, exampleOut.dependencia_x.getD j (fin 0) = specDependency exampleMatrix 3 j) ∧
    (∀ i < 3, exampleOut.motricidad_y.getD i (fin 0) = specDriving exampleMatrix 3 i) ∧
    exampleOut.x_cut = specMean exampleOut.dependencia_x ∧
    exampleOut.y_cut = specMean exampleOut.motricidad_y ∧
    specMean [] = fin 0 :=
  C1_dependency_driving_cuts ["A", "B", "C"] exampleMatrix exampleOut
    (by decide) (by with_unfolding_all decide)

lemma jlt_fin (a b : ℚ) : jlt (fin a) (fin b) = decide (a < b) := rfl

lemma jge_fin (a b : ℚ) : jge (fin a) (fin b) = decide (b ≤ a) := by
  show (! jlt (fin a) (fin b)) = decide (b ≤ a)
  rw [jlt_fin]
  by_cases h : a < b
  · simp [h, not_le.mpr h]
  · simp [h, not_lt.mp h]

/-- C3: quadrant classification is a pure function of
`(dependency, driving, xCut, yCut)`; on finite values the four cases
are as specified, with both ties resolving to the high side, so the
boundary `dependency = xCut, driving = yCut` is Reguladora (the source's
Spanish label for Regulatory; Determinante = Determinant,
Resultado = Result, Autonoma = Autonomous). -/
theorem C3_quadrant_classification (x y xCut yCut : ℚ) :
    (yCut ≤ y → x < xCut →
      quadrantLabel (fin x) (fin y) (fin xCut) (fin yCut) = "Determinante") ∧
    (yCut ≤ y → xCut ≤ x →
      quadrantLabel (fin x) (fin y) (fin xCut) (fin yCut) = "Reguladora") ∧
    (y < yCut → xCut ≤ x →
      quadrantLabel (fin x) (fin y) (fin xCut) (fin yCut) = "Resultado") ∧
    (y < yCut → x < xCut →
      quadrantLabel (fin x) (fin y) (fin xCut) (fin yCut) = "Autonoma") ∧
    (x = xCut → y = yCut →
      quadrantLabel (fin x) (fin y) (fin xCut) (fin yCut) = "Reguladora") := by
  refine ⟨?_, ?_, ?_, ?_, ?_⟩
  · intro h1 h2
    rw [quadrantLabel, jge_fin, jlt_fin]
    simp [h1, h2]
  · intro h1 h2
    rw [quadrantLabel, jge_fin, jge_fin, jlt_fin]
    simp [h1, h2, not_lt.mpr h2]
  · intro h1 h2
    rw [quadrantLabel, jge_fin, jge_fin, jlt_fin, jlt_fin]
    simp [h2, not_le.mpr h1, h1]
  · intro h1 h2
    rw [quadrantLabel, jge_fin, jge_fin, jlt_fin, jlt_fin]
    simp [h2, not_le.mpr h1, not_le.mpr h2, h1]
  · intro h1 h2
    subst h1
    subst h2
    rw [quadrantLabel, jge_fin, jge_fin, jlt_fin]
    simp

theorem C3_witness :
    quadrantLabel (fin 1) (fin 1) (fin 1) (fin 1) = "Reguladora" :=
  (C3_quadrant_classification 1 1 1 1).2.2.2.2 rfl rfl


/-- C2 counterexample: the claim says the engine returns null whenever
the matrix is not square with side length `variables.length`, but the
source only checks the outer row count, so this ragged matrix (outer
length 2, second row of length 1) is accepted and a full result is
returned. -/
theorem C2_counterexample :
    (buildPreviewResult ["A", "B"] raggedMatrix).isSome = true ∧
    raggedMatrix.length = 2 ∧
    (raggedMatrix.getD 1 []).length ≠ 2 := by
  refine ⟨?_, rfl, by decide⟩
  with_unfolding_all decide

lemma hasValue_eq_true_iff (m : List (List JsNum)) (n : Nat) :
    hasValue m n = true ↔
      ∃ i < n, ∃ j < n, i ≠ j ∧ (cellAt m i j).isFinite = true ∧ cellAt m i j ≠ fin 0 := by
  simp only [hasValue, List.any_eq_true, List.mem_range, Bool.and_eq_true,
    decide_eq_true_eq, bne_iff_ne, ne_eq]
  constructor
  · rintro ⟨i, hi, j, hj, ⟨h1, h2⟩, h3⟩
    exact ⟨i, hi, j, hj, h1, h2, h3⟩
  · rintro ⟨i, hi, j, hj, h1, h2, h3⟩
    exact ⟨i, hi, j, hj, ⟨h1, h2⟩, h3⟩

/-- C2 amended: `buildPreviewResult` returns null exactly when the
variable list is empty, or the OUTER length of the matrix differs from
`variables.length` (individual row lengths are never checked; an absent
cell reads as 0), or every off-diagonal cell in the `n × n` index range
is zero, absent or not finite.  It never throws (it is a total
function) and otherwise returns a full result. -/
theorem C2_amended_no_result_condition (vars : List String)
    (matrix : List (List JsNum)) :
    buildPreviewResult vars matrix = none ↔
      (vars = [] ∨ matrix.length ≠ vars.length ∨
        ∀ i < vars.length, ∀ j < vars.length, i ≠ j →
          ((cellAt matrix i j).isFinite = false ∨ cellAt matrix i j = fin 0)) := by
  rw [buildPreviewResult]
  by_cases h1 : vars.length = 0 ∨ matrix.length ≠ vars.length
  · rw [if_pos h1]
    simp only [true_iff]
    rcases h1 with h1 | h1
    · exact Or.inl (List.length_eq_zero.mp h1)
    · exact Or.inr (Or.inl h1)
  · rw [if_neg h1]
    push_neg at h1
    have hvars : vars ≠ [] := fun hc => h1.1 (by simp [hc])
    by_cases h2 : hasValue matrix vars.length = true
    · simp only [h2, Bool.not_true, Bool.false_eq_true, if_false]
      simp only [reduceCtorEq, false_iff, not_or]
      refine ⟨hvars, fun hc => hc (h1.2), ?_⟩
      obtain ⟨i, hi, j, hj, hij, hfin, hnz⟩ := (hasValue_eq_true_iff matrix vars.length).mp h2
      intro hall
      rcases hall i hi j hj hij with hf | hz
      · rw [hfin] at hf
        cases hf
      · exact hnz hz
    · simp only [Bool.not_eq_true] at h2
      simp only [h2, Bool.not_false, if_true, true_iff]
      refine Or.inr (Or.inr ?_)
      intro i hi j hj hij
      have hnot : ¬ (hasValue matrix vars.length = true) := by simp [h2]
      rw [hasValue_eq_true_iff] at hnot
      push_neg at hnot
      by_cases hfin : (cellAt matrix i j).isFinite = true
      · exact Or.inr (hnot i hi j hj hij hfin)
      · exact Or.inl (by simpa using hfin)

theorem C2_witness : buildPreviewResult [] [] = none :=
  (C2_amended_no_result_condition [] []).mpr (Or.inl rfl)


/-- C5 counterexample: the claim (and spec §4.1) says non-finite cells
contribute nothing to the sums, but `computeXY` adds the raw cell
value, so a `NaN` at (0,1) makes `dependency[1]` equal `NaN`, not the
sum `0` of the finite off-diagonal cells of column 1.  The matrix is
still accepted because cell (1,0) is finite and nonzero. -/
theorem C5_counterexample :
    (buildPreviewResult ["A", "B"] nanMatrix).isSome = true ∧
    (computeXY nanMatrix).1.getD 1 (fin 0) = JsNum.nan ∧
    specDependencyFinite nanMatrix 2 1 = fin 0 ∧
    JsNum.nan ≠ fin 0 := by
  with_unfolding_all decide

/-- C5 amended: absent cells (ragged rows, `matrix[i]?.[j] ?? 0`) read
as `0` and never raise; a present non-finite cell is NOT dropped — it
propagates into the sums with JavaScript arithmetic.  Consequently each
dependency/driving entry equals the JavaScript-arithmetic sum of all
off-diagonal cells (with absent cells as 0), not the sum of the finite
ones only. -/
theorem C5_amended_nonfinite_propagates (matrix : List (List JsNum)) :
    (∀ j < matrix.length,
      (computeXY matrix).1.getD j (fin 0) = specDependency matrix matrix.length j) ∧
    (∀ i < matrix.length,
      (computeXY matrix).2.getD i (fin 0) = specDriving matrix matrix.length i) :=
  ⟨fun j hj => computeXY_dep matrix j hj, fun i hi => computeXY_drv matrix i hi⟩

theorem C5_witness :
    (computeXY nanMatrix).1.getD 1 (fin 0) = specDependency nanMatrix nanMatrix.length 1 :=
  (C5_amended_nonfinite_propagates nanMatrix).1 1 (by decide)

/-- C9: with a truthy project id, a non-finite or negative `minWeight`
produces the reported, user-facing error message (and the graph is
cleared — a distinct outcome from the engine's silent `none`), while
every finite non-negative `minWeight` passes validation and proceeds
to the fetch. -/
theorem C9_minweight_validation (projectId : Option Nat) (minWeight : JsNum)
    (directed : Bool) (hp : jsFalsyId projectId = false) :
    (minWeight.isFinite = false →
      loadGraph projectId minWeight directed =
        LoadGraphAction.reportError "El umbral debe ser un nAmero positivo.") ∧
    (∀ q : ℚ, minWeight = fin q → q < 0 →
      loadGraph projectId minWeight directed =
        LoadGraphAction.reportError "El umbral debe ser un nAmero positivo.") ∧
    (∀ q : ℚ, minWeight = fin q → 0 ≤ q →
      loadGraph projectId minWeight directed =
        LoadGraphAction.requestFetch minWeight directed) := by
  refine ⟨?_, ?_, ?_⟩
  · intro hnf
    rw [loadGraph, if_neg (by simp [hp])]
    rw [if_pos (by simp [hnf])]
  · rintro q rfl hneg
    rw [loadGraph, if_neg (by simp [hp])]
    rw [if_pos (by simp [jlt_fin, hneg])]
  · rintro q rfl hpos
    rw [loadGraph, if_neg (by simp [hp])]
    rw [if_neg (by simp [jlt_fin, isFinite, not_lt.mpr hpos])]

theorem C9_witness :
    loadGraph (some 1) JsNum.nan true =
      LoadGraphAction.reportError "El umbral debe ser un nAmero positivo." ∧
    loadGraph (some 1) (fin 0) true = LoadGraphAction.requestFetch (fin 0) true :=
  ⟨(C9_minweight_validation (some 1) JsNum.nan true rfl).1 rfl,
   (C9_minweight_validation (some 1) (fin 0) true rfl).2.2 0 rfl le_rfl⟩

lemma ok_bind (a : α) (f : α → Except ε β) : (Except.ok a >>= f) = f a := rfl

lemma error_bind (e : ε) (f : α → Except ε β) :
    (Except.error e >>= f : Except ε β) = Except.error e := rfl

lemma validateHeader_ok (names : List String) (idx : Nat)
    (h : ∀ name ∈ names, name ≠ "") :
    validateHeader idx names = Except.ok names := by
  induction names generalizing idx with
  | nil => rfl
  | cons name rest ih =>
      have hname : name ≠ "" := h name (List.mem_cons_self name rest)
      rw [validateHeader, if_neg hname]
      rw [ih (idx + 1) (fun n hn => h n (List.mem_cons_of_mem name hn))]
      rfl

lemma validateHeader_ok_inv (names out : List String) (idx : Nat)
    (h : validateHeader idx names = Except.ok out) : out = names := by
  induction names generalizing idx out with
  | nil =>
      rw [validateHeader] at h
      injection h with h
      exact h.symm
  | cons name rest ih =>
      rw [validateHeader] at h
      by_cases hname : name = ""
      · rw [if_pos hname] at h
        cases h
      · rw [if_neg hname] at h
        rcases hrec : validateHeader (idx + 1) rest with e | tail
        · rw [hrec] at h
          cases h
        · rw [hrec] at h
          injection h with h
          rw [← h, ih tail (idx + 1) hrec]

lemma parseRowValues_ok_spec (row : List Cell) (rowIndex : Nat) :
    ∀ (k c : Nat) (vs : List ℚ), parseRowValues row rowIndex c k = Except.ok vs →
      vs.length = k ∧ ∀ t < k,
        normalizeNumberCell (row.getD (c + t + 1) Cell.undef) (rowIndex + 2) (c + t + 2) =
          Except.ok (vs.getD t 0) := by
  intro k
  induction k with
  | zero =>
      intro c vs h
      rw [parseRowValues] at h
      injection h with h
      subst h
      exact ⟨rfl, fun t ht => absurd ht (Nat.not_lt_zero t)⟩
  | succ k ih =>
      intro c vs h
      rw [parseRowValues] at h
      rcases hv : normalizeNumberCell (row.getD (c + 1) Cell.undef) (rowIndex + 2) (c + 2)
        with e | v
      · rw [hv] at h
        cases h
      · rw [hv] at h
        rcases hrest : parseRowValues row rowIndex (c + 1) k with e | rest
        · rw [hrest] at h
          cases h
        · rw [hrest] at h
          injection h with h
          subst h
          obtain ⟨hlen, hent⟩ := ih (c + 1) rest hrest
          refine ⟨by simp [hlen], ?_⟩
          intro t ht
          cases t with
          | zero =>
              simpa using hv
          | succ t =>
              have ht' : t < k := Nat.lt_of_succ_lt_succ ht
              have := hent t ht'
              have e1 : c + 1 + t + 1 = c + (t + 1) + 1 := by omega
              have e2 : c + 1 + t + 2 = c + (t + 1) + 2 := by omega
              rw [e1, e2] at this
              simpa using this

lemma parseBodyRows_ok_spec (vars2 : List String) :
    ∀ (body : List (List Cell)) (rowIndex : Nat) (mat : List (List ℚ)),
      parseBodyRows vars2 body rowIndex = Except.ok mat →
      mat.length = body.length ∧ ∀ t < body.length,
        parseRowValues (body.getD t []) (rowIndex + t) 0 vars2.length =
          Except.ok (mat.getD t []) := by
  intro body
  induction body with
  | nil =>
      intro rowIndex mat h
      rw [parseBodyRows] at h
      injection h with h
      subst h
      exact ⟨rfl, fun t ht => absurd ht (Nat.not_lt_zero t)⟩
  | cons row rest ih =>
      intro rowIndex mat h
      rw [parseBodyRows] at h
      by_cases hlbl : jsTrim (cellText (row.getD 0 Cell.undef)) ≠ "" ∧
          jsTrim (cellText (row.getD 0 Cell.undef)) ≠ vars2.getD rowIndex ""
      · rw [if_pos hlbl] at h
        cases h
      · rw [if_neg hlbl] at h
        rcases hv : parseRowValues row rowIndex 0 vars2.length with e | values
        · rw [hv] at h
          cases h
        · rw [hv] at h
          rcases hrest : parseBodyRows vars2 rest (rowIndex + 1) with e | tail
          · rw [hrest] at h
            cases h
          · rw [hrest] at h
            injection h with h
            subst h
            obtain ⟨hlen, hent⟩ := ih (rowIndex + 1) tail hrest
            refine ⟨by simp [hlen], ?_⟩
            intro t ht
            cases t with
            | zero =>
                simpa using hv
            | succ t =>
                have ht' : t < rest.length := Nat.lt_of_succ_lt_succ ht
                have := hent t ht'
                have e1 : rowIndex + 1 + t = rowIndex + (t + 1) := by omega
                rw [e1] at this
                simpa using this

lemma parseMatrixTable_ok_spec (rows : List (List Cell)) (d : ParsedDataset)
    (h : parseMatrixTable rows = Except.ok d) :
    rows.isEmpty = false ∧
    d.vars = ((rows.headD []).drop 1).map (fun c => jsTrim (cellText c)) ∧
    ((rows.drop 1).filter rowNonBlank).length = d.vars.length ∧
    parseBodyRows d.vars ((rows.drop 1).filter rowNonBlank) 0 = Except.ok d.matrix := by
  rw [parseMatrixTable] at h
  by_cases hrows : rows.isEmpty
  · rw [if_pos hrows] at h
    cases h
  · rw [if_neg hrows] at h
    by_cases hhdr : (((rows.headD []).drop 1).map fun c => jsTrim (cellText c)).isEmpty
    · rw [if_pos hhdr] at h
      cases h
    · rw [if_neg hhdr] at h
      rcases hvh : validateHeader 0 (((rows.headD []).drop 1).map fun c => jsTrim (cellText c))
        with e | vars2
      · rw [hvh] at h
        cases h
      · rw [hvh] at h
        rw [ok_bind] at h
        have hvars2 := validateHeader_ok_inv _ _ _ hvh
        by_cases hcnt : ((rows.drop 1).filter rowNonBlank).length ≠ vars2.length
        · rw [if_pos hcnt] at h
          cases h
        · rw [if_neg hcnt] at h
          rcases hbody : parseBodyRows vars2 ((rows.drop 1).filter rowNonBlank) 0
            with e | matrix
          · rw [hbody] at h
            rw [error_bind] at h
            cases h
          · rw [hbody] at h
            rw [ok_bind] at h
            injection h with h
            subst h
            push_neg at hcnt
            exact ⟨Bool.not_eq_true _ ▸ hrows, hvars2.symm ▸ rfl, by simpa using hcnt,
              by simpa using hbody⟩

/-- C7: when the header is usable (non-empty, no blank names), a
mismatch between the number of non-blank data rows and the header
length is rejected with the count error (the source's Spanish wording
of "expected N×N, found M rows"), and no dataset is produced. -/
theorem C7_row_count_mismatch (rows : List (List Cell))
    (hrows : rows.isEmpty = false)
    (hhdr : (((rows.headD []).drop 1).map fun c => jsTrim (cellText c)) ≠ [])
    (hnames : ∀ name ∈ ((rows.headD []).drop 1).map fun c => jsTrim (cellText c), name ≠ "")
    (hcount : ((rows.drop 1).filter rowNonBlank).length ≠
      (((rows.headD []).drop 1).map fun c => jsTrim (cellText c)).length) :
    parseMatrixTable rows =
      Except.error
        (countErrMsg (((rows.headD []).drop 1).map fun c => jsTrim (cellText c)).length
          ((rows.drop 1).filter rowNonBlank).length) := by
  rw [parseMatrixTable, if_neg (by simp [hrows])]
  dsimp only
  rw [if_neg (fun hc => hhdr (List.isEmpty_iff.mp hc))]
  rw [validateHeader_ok _ 0 hnames, ok_bind]
  rw [if_pos hcount]

theorem C7_witness :
    parseMatrixTable shortCountTable =
      Except.error "La matriz debe ser 2x2; se encontraron 1 filas con datos." := by
  have h := C7_row_count_mismatch shortCountTable rfl (by with_unfolding_all decide)
    (by with_unfolding_all decide) (by with_unfolding_all decide)
  exact h.trans (by with_unfolding_all decide)

/-- C10: a short data row in an accepted matrix table is not an error —
the accepted dataset always carries full-length rows, and every cell
the source row does not supply (index beyond the row's length) parses
as 0. -/
theorem C10_short_rows_pad (rows : List (List Cell)) (d : ParsedDataset)
    (h : parseMatrixTable rows = Except.ok d) :
    (∀ row ∈ d.matrix, row.length = d.vars.length) ∧
    (∀ r < d.matrix.length, ∀ c2 < d.vars.length,
      (((rows.drop 1).filter rowNonBlank).getD r []).length ≤ c2 + 1 →
      (d.matrix.getD r []).getD c2 0 = 0) := by
  obtain ⟨-, -, hcnt, hbody⟩ := parseMatrixTable_ok_spec rows d h
  obtain ⟨hmlen, hrow⟩ := parseBodyRows_ok_spec d.vars _ 0 d.matrix hbody
  have hrowlen : ∀ r < d.matrix.length, (d.matrix.getD r []).length = d.vars.length := by
    intro r hr
    have hr' : r < ((rows.drop 1).filter rowNonBlank).length := by omega
    have := hrow r hr'
    rw [Nat.zero_add] at this
    exact (parseRowValues_ok_spec _ _ _ _ _ this).1
  refine ⟨?_, ?_⟩
  · intro row hrowmem
    obtain ⟨r, hr, hget⟩ := List.getElem_of_mem hrowmem
    have hgd : d.matrix.getD r [] = row := by
      rw [List.getD_eq_getElem?_getD, List.getElem?_eq_getElem hr, Option.getD_some, hget]
    rw [← hgd]
    exact hrowlen r hr
  · intro r hr c2 hc2 hshort
    have hr' : r < ((rows.drop 1).filter rowNonBlank).length := by omega
    have hpv := hrow r hr'
    rw [Nat.zero_add] at hpv
    obtain ⟨-, hent⟩ := parseRowValues_ok_spec _ _ _ _ _ hpv
    have := hent c2 hc2
    rw [Nat.zero_add] at this
    have habs : (((rows.drop 1).filter rowNonBlank).getD r []).getD (c2 + 1) Cell.undef =
        Cell.undef := by
      rw [List.getD_eq_getElem?_getD, List.getElem?_eq_none (by omega), Option.getD_none]
    rw [habs] at this
    rw [normalizeNumberCell] at this
    injection this with this
    exact this.symm

theorem C10_witness :
    parseMatrixTable shortRowTable = Except.ok shortRowDataset ∧
    (shortRowDataset.matrix.getD 0 []).getD 1 0 = 0 ∧
    (shortRowDataset.matrix.getD 1 []).getD 0 0 = 0 := by
  have hok : parseMatrixTable shortRowTable = Except.ok shortRowDataset := by
    with_unfolding_all decide
  refine ⟨hok, ?_, ?_⟩
  · exact (C10_short_rows_pad shortRowTable shortRowDataset hok).2 0 (by decide) 1
      (by decide) (by with_unfolding_all decide)
  · exact (C10_short_rows_pad shortRowTable shortRowDataset hok).2 1 (by decide) 0
      (by decide) (by with_unfolding_all decide)

/-- C6 counterexample: `parseMatrixTable` stores a supplied nonzero
diagonal value (here 5 at (0,0)) as-is — the import path neither zeroes
the diagonal nor reports an error, so the invariant `matrix[i][i] = 0`
does not survive an import. -/
theorem C6_counterexample :
    parseMatrixTable diagTable =
      Except.ok { vars := ["A", "B"], matrix := [[5, 1], [2, 0]] } ∧
    (([[5, 1], [2, 0]] : List (List ℚ)).getD 0 []).getD 0 0 ≠ 0 := by
  with_unfolding_all decide

/-- C6 amended: editing a cell (`setCell`) and rebuilding the matrix
on a variable-count change (`resizeMatrix`) both force the diagonal to
0 and never report an error, but `parseMatrixTable` passes the supplied
diagonal cell through `normalizeNumberCell` unchanged — the imported
dataset keeps whatever diagonal value the table carried. -/
theorem C6_amended_diag :
    (∀ (prev : List (List JsNum)) (i j : Nat) (v : JsNum),
      (∀ t, cellAt prev t t = fin 0) → ∀ t, cellAt (setCell prev i j v) t t = fin 0) ∧
    (∀ (n : Nat) (prev : List (List JsNum)) (r : Nat),
      cellAt (resizeMatrix n prev) r r = fin 0) ∧
    (∀ (rows : List (List Cell)) (d : ParsedDataset) (t : Nat),
      parseMatrixTable rows = Except.ok d → t < d.vars.length →
      normalizeNumberCell ((((rows.drop 1).filter rowNonBlank).getD t []).getD (t + 1)
          Cell.undef) (t + 2) (t + 2) =
        Except.ok ((d.matrix.getD t []).getD t 0)) := by
  refine ⟨?_, ?_, ?_⟩
  · intro prev i j v hdiag t
    rw [setCell, cellAt]
    rcases ht : prev[t]? with _ | row
    · simp [List.getD_eq_getElem?_getD, List.getElem?_mapIdx, ht]
    · simp only [List.getD_eq_getElem?_getD, List.getElem?_mapIdx, ht, Option.map_some',
        Option.getD_some]
      rcases htr : row[t]? with _ | cell
      · simp [List.getD_eq_getElem?_getD, List.getElem?_mapIdx, htr]
      · simp only [List.getD_eq_getElem?_getD, List.getElem?_mapIdx, htr, Option.map_some',
          Option.getD_some]
        by_cases hij : t = i ∧ t = j
        · have hieqj : i = j := by rw [← hij.1, ← hij.2]
          simp [hij, hieqj]
        · rw [if_neg hij]
          have := hdiag t
          simp only [cellAt, List.getD_eq_getElem?_getD, ht, Option.getD_some, htr] at this
          exact this
  · intro n prev r
    rw [resizeMatrix, cellAt]
    by_cases hr : r < n
    · rw [getD_map_range _ _ _ hr, getD_map_range _ _ _ hr]
      simp
    · have h1 : (((List.range n).map fun i => (List.range n).map fun j =>
          if i = j then fin 0 else cellAt prev i j)).getD r [] = [] := by
        rw [List.getD_eq_getElem?_getD, List.getElem?_eq_none (by simpa using hr)]
        rfl
      rw [h1]
      rfl
  · intro rows d t hok ht
    obtain ⟨-, -, hcnt, hbody⟩ := parseMatrixTable_ok_spec rows d hok
    obtain ⟨hmlen, hrow⟩ := parseBodyRows_ok_spec d.vars _ 0 d.matrix hbody
    have ht' : t < ((rows.drop 1).filter rowNonBlank).length := by omega
    have hpv := hrow t ht'
    rw [Nat.zero_add] at hpv
    obtain ⟨-, hent⟩ := parseRowValues_ok_spec _ _ _ _ _ hpv
    have := hent t ht
    rw [Nat.zero_add] at this
    exact this

theorem C6_witness :
    cellAt (setCell [[fin 0, fin 1], [fin 2, fin 0]] 1 1 (fin 7)) 1 1 = fin 0 ∧
    cellAt (resizeMatrix 2 [[fin 0, fin 1]]) 1 1 = fin 0 ∧
    normalizeNumberCell ((((diagTable.drop 1).filter rowNonBlank).getD 0 []).getD 1
        Cell.undef) 2 2 =
      Except.ok ((([[5, 1], [2, 0]] : List (List ℚ)).getD 0 []).getD 0 0) :=
  ⟨C6_amended_diag.1 [[fin 0, fin 1], [fin 2, fin 0]] 1 1 (fin 7)
      (by
        intro t
        match t with
        | 0 => rfl
        | 1 => rfl
        | n + 2 => rfl) 1,
   C6_amended_diag.2.1 2 [[fin 0, fin 1]] 1,
   C6_amended_diag.2.2 diagTable { vars := ["A", "B"], matrix := [[5, 1], [2, 0]] } 0
     (by with_unfolding_all decide) (by decide)⟩

lemma jsNumber_of_data_nil (s : String) (h : s.data = []) : jsNumber s = fin 0 := by
  rw [jsNumber, h]
  rfl

/-- C8 counterexample: a numeric cell holding `NaN` does not "pass
through unchanged" — `Number.isFinite` fails, the string and blank
branches do not apply, and the cell is rejected with the non-numeric
error. -/
theorem C8_counterexample :
    normalizeNumberCell (Cell.num JsNum.nan) 2 2 =
      Except.error "Valor no numerico en la posicion (2, 2)." ∧
    normalizeNumberCell (Cell.num JsNum.inf) 2 2 =
      Except.error "Valor no numerico en la posicion (2, 2)." := by
  with_unfolding_all decide

/-- C8 amended: FINITE numeric cells pass through unchanged (non-finite
ones are rejected, see the counterexample); string cells are trimmed,
have their first decimal comma replaced by a point and are parsed as a
number, taking their parsed value when it is finite; blank or absent
cells (`null`, `undefined`, the empty string and all-whitespace
strings) default to 0; any other cell — a string that does not parse to
a finite number, or a non-string non-number such as a boolean — fails
with the "Valor no numerico" error citing the caller's human-meaningful
(row, column) coordinates, and no value is produced. -/
theorem C8_cell_normalization (r c : Nat) :
    (∀ q : ℚ, normalizeNumberCell (Cell.num (fin q)) r c = Except.ok q) ∧
    (∀ (s : String) (q : ℚ), jsNumber (jsReplaceFirstComma (jsTrim s)) = fin q →
      normalizeNumberCell (Cell.str s) r c = Except.ok q) ∧
    normalizeNumberCell Cell.nullc r c = Except.ok 0 ∧
    normalizeNumberCell Cell.undef r c = Except.ok 0 ∧
    normalizeNumberCell (Cell.str "") r c = Except.ok 0 ∧
    (∀ s : String, (∀ q : ℚ, jsNumber (jsReplaceFirstComma (jsTrim s)) ≠ fin q) →
      normalizeNumberCell (Cell.str s) r c = Except.error (nonNumericMsg r c)) ∧
    (∀ b : Bool, normalizeNumberCell (Cell.boolc b) r c = Except.error (nonNumericMsg r c)) := by
  refine ⟨fun q => rfl, ?_, rfl, rfl, rfl, ?_, fun b => rfl⟩
  · intro s q hq
    rw [normalizeNumberCell]
    by_cases hemp : (jsReplaceFirstComma (jsTrim s)).data.isEmpty = true
    · rw [if_pos hemp]
      have h0 : jsNumber (jsReplaceFirstComma (jsTrim s)) = fin 0 :=
        jsNumber_of_data_nil _ (List.isEmpty_iff.mp hemp)
      rw [h0] at hq
      injection hq with hq
      rw [hq]
    · rw [if_neg hemp, hq]
  · intro s hfail
    have hemp : ¬ (jsReplaceFirstComma (jsTrim s)).data.isEmpty = true := by
      intro hc
      exact hfail 0 (jsNumber_of_data_nil _ (List.isEmpty_iff.mp hc))
    rw [normalizeNumberCell]
    rw [if_neg hemp]
    have hsne : s ≠ "" := by
      intro hc
      subst hc
      exact hemp rfl
    rcases hjs : jsNumber (jsReplaceFirstComma (jsTrim s)) with _ | _ | _ | q
    · rw [if_neg hsne]
    · rw [if_neg hsne]
    · rw [if_neg hsne]
    · exact absurd hjs (hfail q)

theorem C8_witness :
    normalizeNumberCell (Cell.num (fin (7 / 2))) 2 3 = Except.ok (7 / 2) ∧
    normalizeNumberCell (Cell.str "1,5") 2 3 = Except.ok (3 / 2) ∧
    normalizeNumberCell Cell.nullc 2 3 = Except.ok 0 ∧
    normalizeNumberCell (Cell.str "abc") 2 3 =
      Except.error "Valor no numerico en la posicion (2, 3)." ∧
    normalizeNumberCell (Cell.boolc true) 2 3 =
      Except.error "Valor no numerico en la posicion (2, 3)." := by
  have hmsg : nonNumericMsg 2 3 = "Valor no numerico en la posicion (2, 3)." := by
    with_unfolding_all decide
  have habc : jsNumber (jsReplaceFirstComma (jsTrim "abc")) = JsNum.nan := by
    with_unfolding_all decide
  refine ⟨(C8_cell_normalization 2 3).1 (7 / 2),
    (C8_cell_normalization 2 3).2.1 "1,5" (3 / 2) (by with_unfolding_all decide),
    (C8_cell_normalization 2 3).2.2.1,
    hmsg ▸ (C8_cell_normalization 2 3).2.2.2.2.2.1 "abc" ?_,
    hmsg ▸ (C8_cell_normalization 2 3).2.2.2.2.2.2 true⟩
  intro q hq
  rw [habc] at hq
  exact JsNum.noConfusion hq

/-- What a character of a rendered number can be. -/
def numChar (c : Char) : Bool := isDigitChar c || c = '.' || c = '-'

lemma digitChar_spec (d : Nat) (h : d < 10) :
    isDigitChar (digitChar d) = true ∧ digVal (digitChar d) = d := by
  interval_cases d <;> exact ⟨rfl, rfl⟩

lemma digit_not_special (c : Char) (h : isDigitChar c = true) :
    isJsWhitespace c = false ∧ c ≠ ',' ∧ c ≠ '\n' := by
  by_cases e1 : c = ' '
  · subst e1; exact absurd h (by decide)
  by_cases e2 : c = '\t'
  · subst e2; exact absurd h (by decide)
  by_cases e3 : c = '\n'
  · subst e3; exact absurd h (by decide)
  by_cases e4 : c = '\r'
  · subst e4; exact absurd h (by decide)
  by_cases e5 : c = ','
  · subst e5; exact absurd h (by decide)
  refine ⟨?_, e5, e3⟩
  simp [isJsWhitespace, e1, e2, e3, e4]

lemma numChar_not_special (c : Char) (h : numChar c = true) :
    isJsWhitespace c = false ∧ c ≠ ',' ∧ c ≠ '\n' := by
  simp only [numChar, Bool.or_eq_true, decide_eq_true_eq] at h
  rcases h with (hd | hdot) | hminus
  · exact digit_not_special c hd
  · subst hdot; exact ⟨rfl, by decide, by decide⟩
  · subst hminus; exact ⟨rfl, by decide, by decide⟩

lemma digitsLE_lt (n : Nat) : ∀ d ∈ digitsLE n, d < 10 := by
  induction n using Nat.strong_induction_on with
  | _ n ih =>
      intro d hd
      rw [digitsLE] at hd
      by_cases hn : n = 0
      · simp [hn] at hd
      · rw [dif_neg hn] at hd
        rcases List.mem_cons.mp hd with h1 | h2
        · subst h1; exact Nat.mod_lt n (by norm_num)
        · exact ih (n / 10) (Nat.div_lt_self (Nat.pos_of_ne_zero hn) (by norm_num)) d h2

lemma valLE_digitsLE (n : Nat) : valLE (digitsLE n) = n := by
  induction n using Nat.strong_induction_on with
  | _ n ih =>
      rw [digitsLE]
      by_cases hn : n = 0
      · simp [hn, valLE]
      · rw [dif_neg hn, valLE]
        rw [ih (n / 10) (Nat.div_lt_self (Nat.pos_of_ne_zero hn) (by norm_num))]
        omega

lemma valMSB_seed (l : List Char) (a : Nat) :
    l.foldl (fun a c => 10 * a + digVal c) a = a * 10 ^ l.length + valMSB l := by
  induction l generalizing a with
  | nil => simp [valMSB]
  | cons c l ih =>
      rw [List.foldl_cons, ih]
      have hv : valMSB (c :: l) = digVal c * 10 ^ l.length + valMSB l := by
        show List.foldl _ (10 * 0 + digVal c) l = _
        rw [ih]
        ring_nf
      rw [List.length_cons, hv]
      ring

lemma valMSB_append (xs ys : List Char) :
    valMSB (xs ++ ys) = valMSB xs * 10 ^ ys.length + valMSB ys := by
  rw [valMSB, List.foldl_append, ← valMSB, valMSB_seed]

lemma valMSB_rev_map (l : List Nat) (h : ∀ d ∈ l, d < 10) :
    valMSB (l.reverse.map digitChar) = valLE l := by
  induction l with
  | nil => rfl
  | cons d ds ih =>
      rw [List.reverse_cons, List.map_append, valMSB_append]
      rw [ih (fun x hx => h x (List.mem_cons_of_mem d hx))]
      have hd := (digitChar_spec d (h d (List.mem_cons_self d ds))).2
      have h1 : valMSB [digitChar d] = digVal (digitChar d) := by
        show 10 * 0 + digVal (digitChar d) = _
        omega
      simp only [List.map_cons, List.map_nil, List.length_cons, List.length_nil, h1, hd,
        valLE]
      ring

lemma valMSB_natCharsMSB (n : Nat) : valMSB (natCharsMSB n) = n := by
  rw [natCharsMSB]
  by_cases hn : n = 0
  · simp [hn, valMSB, digVal]
  · rw [if_neg hn, valMSB_rev_map (digitsLE n) (digitsLE_lt n), valLE_digitsLE]

lemma natCharsMSB_digits (n : Nat) : ∀ c ∈ natCharsMSB n, isDigitChar c = true := by
  rw [natCharsMSB]
  by_cases hn : n = 0
  · rw [if_pos hn]
    intro c hc
    rw [List.mem_singleton] at hc
    subst hc
    rfl
  · rw [if_neg hn]
    intro c hc
    obtain ⟨d, hd, rfl⟩ := List.mem_map.mp hc
    exact (digitChar_spec d (digitsLE_lt n d (List.mem_reverse.mp hd))).1

lemma valMSB_replicate_zero (k : Nat) (ds : List Char) :
    valMSB (List.replicate k '0' ++ ds) = valMSB ds := by
  rw [valMSB_append]
  have hz : valMSB (List.replicate k '0') = 0 := by
    induction k with
    | zero => rfl
    | succ k ih =>
        rw [List.replicate_succ]
        show List.foldl (fun a c => 10 * a + digVal c) (10 * 0 + digVal '0')
          (List.replicate k '0') = 0
        rw [valMSB_seed, ih]
        simp [digVal]
  rw [hz]
  simp

lemma digit_ne_sign (c : Char) (h : isDigitChar c = true) : c ≠ '-' ∧ c ≠ '+' := by
  by_cases e1 : c = '-'
  · subst e1; exact absurd h (by decide)
  by_cases e2 : c = '+'
  · subst e2; exact absurd h (by decide)
  exact ⟨e1, e2⟩

lemma takeWhile_all (p : α → Bool) (l : List α) (h : ∀ x ∈ l, p x = true) :
    l.takeWhile p = l := by
  induction l with
  | nil => rfl
  | cons a l ih =>
      rw [List.takeWhile_cons, if_pos (h a (List.mem_cons_self a l))]
      rw [ih (fun x hx => h x (List.mem_cons_of_mem a hx))]

lemma dropWhile_all (p : α → Bool) (l : List α) (h : ∀ x ∈ l, p x = true) :
    l.dropWhile p = [] := by
  induction l with
  | nil => rfl
  | cons a l ih =>
      rw [List.dropWhile_cons, if_pos (h a (List.mem_cons_self a l))]
      exact ih (fun x hx => h x (List.mem_cons_of_mem a hx))

lemma takeWhile_append_stop (p : α → Bool) (xs : List α) (c : α) (ys : List α)
    (hxs : ∀ x ∈ xs, p x = true) (hc : p c = false) :
    (xs ++ c :: ys).takeWhile p = xs ∧ (xs ++ c :: ys).dropWhile p = c :: ys := by
  induction xs with
  | nil =>
      simp [List.takeWhile_cons, List.dropWhile_cons, hc]
  | cons a xs ih =>
      have ha : p a = true := hxs a (List.mem_cons_self a xs)
      obtain ⟨ih1, ih2⟩ := ih (fun x hx => hxs x (List.mem_cons_of_mem a hx))
      constructor
      · rw [List.cons_append, List.takeWhile_cons, if_pos ha, ih1]
      · rw [List.cons_append, List.dropWhile_cons, if_pos ha, ih2]

lemma parseDecCore_digits (ds : List Char) (hne : ds ≠ [])
    (hds : ∀ c ∈ ds, isDigitChar c = true) :
    parseDecCore ds = some ((valMSB ds : ℚ)) := by
  rw [parseDecCore]
  rw [takeWhile_all _ _ hds, dropWhile_all _ _ hds]
  rw [if_neg (by simpa [List.isEmpty_iff] using hne)]

lemma parseDecCore_point (ipart fpart : List Char) (hne : ipart ≠ [])
    (hip : ∀ c ∈ ipart, isDigitChar c = true) (hfp : ∀ c ∈ fpart, isDigitChar c = true) :
    parseDecCore (ipart ++ '.' :: fpart) =
      some ((valMSB ipart : ℚ) + (valMSB fpart : ℚ) / (10 : ℚ) ^ fpart.length) := by
  obtain ⟨h1, h2⟩ := takeWhile_append_stop isDigitChar ipart '.' fpart hip (by decide)
  rw [parseDecCore]
  rw [h1, h2]
  have hall : fpart.all isDigitChar = true := List.all_eq_true.mpr hfp
  have hipne : ipart.isEmpty = false := by
    simpa [List.isEmpty_iff] using hne
  show (if (fpart.all isDigitChar && !(ipart.isEmpty && fpart.isEmpty)) = true then
      some ((valMSB ipart : ℚ) + (valMSB fpart : ℚ) / (10 : ℚ) ^ fpart.length)
    else none) = _
  rw [if_pos (by simp [hall, hipne])]

lemma natCharsMSB_ne_nil (n : Nat) : natCharsMSB n ≠ [] := by
  rw [natCharsMSB]
  by_cases hn : n = 0
  · rw [if_pos hn]
    exact List.cons_ne_nil _ _
  · rw [if_neg hn]
    rw [digitsLE, dif_neg hn]
    simp

lemma headD_append_left (xs : List α) (ys : List α) (d : α) (h : xs ≠ []) :
    (xs ++ ys).headD d = xs.headD d := by
  cases xs with
  | nil => exact absurd rfl h
  | cons a l => rfl

lemma headD_mem (l : List α) (d : α) (h : l ≠ []) : l.headD d ∈ l := by
  cases l with
  | nil => exact absurd rfl h
  | cons a t => exact List.mem_cons_self a t

lemma pad_digits (k N : Nat) :
    ∀ c ∈ List.replicate (k + 1 - (natCharsMSB N).length) '0' ++ natCharsMSB N,
      isDigitChar c = true := by
  intro c hc
  rcases List.mem_append.mp hc with h | h
  · rw [List.eq_of_mem_replicate h]
    rfl
  · exact natCharsMSB_digits N c h

lemma numBody_spec (q : ℚ) :
    parseDecCore (numBody q) =
      some (((q.num.natAbs * (10 ^ decExp q.den / q.den) : ℕ) : ℚ) /
        (10 : ℚ) ^ decExp q.den) ∧
    isDigitChar ((numBody q).headD ' ') = true ∧ numBody q ≠ [] := by
  have hmain : ∀ k N : Nat,
      parseDecCore ((List.replicate (k + 1 - (natCharsMSB N).length) '0' ++
          natCharsMSB N).take ((List.replicate (k + 1 - (natCharsMSB N).length) '0' ++
          natCharsMSB N).length - k) ++
        (if k = 0 then []
          else '.' :: (List.replicate (k + 1 - (natCharsMSB N).length) '0' ++
            natCharsMSB N).drop ((List.replicate (k + 1 - (natCharsMSB N).length) '0' ++
              natCharsMSB N).length - k))) = some ((N : ℚ) / (10 : ℚ) ^ k) ∧
      isDigitChar (((List.replicate (k + 1 - (natCharsMSB N).length) '0' ++
          natCharsMSB N).take ((List.replicate (k + 1 - (natCharsMSB N).length) '0' ++
          natCharsMSB N).length - k) ++
        (if k = 0 then []
          else '.' :: (List.replicate (k + 1 - (natCharsMSB N).length) '0' ++
            natCharsMSB N).drop ((List.replicate (k + 1 - (natCharsMSB N).length) '0' ++
              natCharsMSB N).length - k))).headD ' ') = true := by
    intro k N
    have hpd := pad_digits k N
    have hdsne : (natCharsMSB N).length ≠ 0 := by
      simpa [List.length_eq_zero] using natCharsMSB_ne_nil N
    have hlen : (List.replicate (k + 1 - (natCharsMSB N).length) '0' ++
        natCharsMSB N).length = (k + 1 - (natCharsMSB N).length) + (natCharsMSB N).length := by
      simp
    have hLk : k + 1 ≤ (List.replicate (k + 1 - (natCharsMSB N).length) '0' ++
        natCharsMSB N).length := by
      omega
    have hval : valMSB (List.replicate (k + 1 - (natCharsMSB N).length) '0' ++
        natCharsMSB N) = N := by
      rw [valMSB_replicate_zero, valMSB_natCharsMSB]
    set pad := List.replicate (k + 1 - (natCharsMSB N).length) '0' ++ natCharsMSB N
      with hpad
    have htklen : (pad.take (pad.length - k)).length = pad.length - k := by
      rw [List.length_take]
      omega
    have htkne : pad.take (pad.length - k) ≠ [] := by
      rw [← List.length_pos]
      omega
    have htkd : ∀ c ∈ pad.take (pad.length - k), isDigitChar c = true :=
      fun c hc => hpd c (List.mem_of_mem_take hc)
    have hhead : isDigitChar ((pad.take (pad.length - k) ++
        (if k = 0 then [] else '.' :: pad.drop (pad.length - k))).headD ' ') = true := by
      rw [headD_append_left _ _ _ htkne]
      exact htkd _ (headD_mem _ _ htkne)
    refine ⟨?_, hhead⟩
    by_cases hk : k = 0
    · subst hk
      rw [if_pos rfl, List.append_nil, Nat.sub_zero, List.take_length]
      rw [parseDecCore_digits pad (by rw [← List.length_pos]; omega) hpd, hval]
      norm_num
    · rw [if_neg hk]
      have hdrd : ∀ c ∈ pad.drop (pad.length - k), isDigitChar c = true :=
        fun c hc => hpd c (List.mem_of_mem_drop hc)
      rw [parseDecCore_point _ _ htkne htkd hdrd]
      have hdroplen : (pad.drop (pad.length - k)).length = k := by
        rw [List.length_drop]
        omega
      have hsum : valMSB (pad.take (pad.length - k)) * 10 ^ k +
          valMSB (pad.drop (pad.length - k)) = N := by
        have := valMSB_append (pad.take (pad.length - k)) (pad.drop (pad.length - k))
        rw [List.take_append_drop, hdroplen] at this
        rw [← this, hval]
      rw [hdroplen]
      congr 1
      have h10 : ((10 : ℚ) ^ k) ≠ 0 := by positivity
      field_simp
      push_cast [← hsum]
      ring
  obtain ⟨h1, h2⟩ := hmain (decExp q.den) (q.num.natAbs * (10 ^ decExp q.den / q.den))
  have h2n : isDigitChar ((numBody q).headD ' ') = true := h2
  refine ⟨h1, h2n, ?_⟩
  intro hc
  rw [hc] at h2n
  exact absurd h2n (by decide)

/-- The codec round trip: the decimal rendering of a rational whose
denominator divides `10 ^ decExp den` (every JavaScript number value)
parses back to exactly that rational. -/
lemma parseDec_numToStr (q : ℚ) (hdvd : q.den ∣ 10 ^ decExp q.den) :
    parseDecChars (numToStrChars q) = some q := by
  obtain ⟨hcore, hhead, hne⟩ := numBody_spec q
  have hden0 : (q.den : ℚ) ≠ 0 := by exact_mod_cast q.den_pos.ne'
  have h10 : ((10 : ℚ) ^ decExp q.den) ≠ 0 := by positivity
  have hnat : (q.num.natAbs * (10 ^ decExp q.den / q.den)) * q.den =
      q.num.natAbs * 10 ^ decExp q.den := by
    rw [Nat.mul_assoc, Nat.div_mul_cancel hdvd]
  have hcross : ((q.num.natAbs * (10 ^ decExp q.den / q.den) : ℕ) : ℚ) * (q.den : ℚ) =
      (q.num.natAbs : ℚ) * (10 : ℚ) ^ decExp q.den := by
    exact_mod_cast congrArg (fun n : ℕ => (n : ℚ)) hnat
  have hNcast : ((q.num.natAbs * (10 ^ decExp q.den / q.den) : ℕ) : ℚ) /
      (10 : ℚ) ^ decExp q.den = (q.num.natAbs : ℚ) / (q.den : ℚ) := by
    rw [div_eq_div_iff h10 hden0]
    linear_combination hcross
  obtain ⟨hnm, hnp⟩ := digit_ne_sign _ hhead
  by_cases hneg : q < 0
  · have hchars : numToStrChars q = '-' :: numBody q := by
      rw [numToStrChars, if_pos hneg]
    rw [hchars, parseDecChars]
    rw [if_pos (show ('-' :: numBody q).headD ' ' = '-' from rfl)]
    show (parseDecCore (numBody q)).map (fun q => -q) = some q
    rw [hcore, Option.map_some', hNcast]
    have hnum : q.num ≤ 0 := le_of_lt (Rat.num_neg.mpr hneg)
    have hint : (q.num.natAbs : ℤ) = -q.num := by omega
    congr 1
    rw [show ((q.num.natAbs : ℚ)) = -((q.num : ℤ) : ℚ) from by
      rw [← Int.cast_natCast (R := ℚ) q.num.natAbs, hint]
      push_cast
      ring]
    rw [neg_div, neg_neg, Rat.num_div_den]
  · have hchars : numToStrChars q = numBody q := by
      rw [numToStrChars, if_neg hneg]
    rw [hchars, parseDecChars]
    rw [if_neg hnm, if_neg hnp]
    rw [hcore, hNcast]
    have hnum : 0 ≤ q.num := Rat.num_nonneg.mpr (not_lt.mp hneg)
    have hint : (q.num.natAbs : ℤ) = q.num := by omega
    congr 1
    rw [show ((q.num.natAbs : ℚ)) = ((q.num : ℤ) : ℚ) from by
      rw [← Int.cast_natCast (R := ℚ) q.num.natAbs, hint]]
    rw [Rat.num_div_den]

lemma numBody_chars (q : ℚ) : ∀ c ∈ numBody q, isDigitChar c = true ∨ c = '.' := by
  have hgen : ∀ k N : Nat, ∀ c ∈
      ((List.replicate (k + 1 - (natCharsMSB N).length) '0' ++
          natCharsMSB N).take ((List.replicate (k + 1 - (natCharsMSB N).length) '0' ++
          natCharsMSB N).length - k) ++
        (if k = 0 then []
          else '.' :: (List.replicate (k + 1 - (natCharsMSB N).length) '0' ++
            natCharsMSB N).drop ((List.replicate (k + 1 - (natCharsMSB N).length) '0' ++
              natCharsMSB N).length - k))),
      isDigitChar c = true ∨ c = '.' := by
    intro k N c hc
    have hpd := pad_digits k N
    rcases List.mem_append.mp hc with h | h
    · exact Or.inl (hpd c (List.mem_of_mem_take h))
    · by_cases hk : k = 0
      · rw [if_pos hk] at h
        cases h
      · rw [if_neg hk] at h
        rcases List.mem_cons.mp h with h1 | h2
        · exact Or.inr h1
        · exact Or.inl (hpd c (List.mem_of_mem_drop h2))
  exact hgen (decExp q.den) (q.num.natAbs * (10 ^ decExp q.den / q.den))

lemma numToStrChars_chars (q : ℚ) :
    ∀ c ∈ numToStrChars q, numChar c = true := by
  intro c hc
  rw [numToStrChars] at hc
  have hbody : ∀ c2 ∈ numBody q, numChar c2 = true := by
    intro c2 hc2
    rcases numBody_chars q c2 hc2 with h | h
    · simp [numChar, h]
    · simp [numChar, h]
  by_cases hneg : q < 0
  · rw [if_pos hneg] at hc
    rcases List.mem_cons.mp hc with h1 | h2
    · subst h1; rfl
    · exact hbody c h2
  · rw [if_neg hneg] at hc
    exact hbody c hc

lemma dropWhile_false (p : α → Bool) (l : List α) (h : ∀ x ∈ l, p x = false) :
    l.dropWhile p = l := by
  cases l with
  | nil => rfl
  | cons a l =>
      rw [List.dropWhile_cons, if_neg (by simp [h a (List.mem_cons_self a l)])]

lemma jsTrimChars_id (cs : List Char) (h : ∀ c ∈ cs, isJsWhitespace c = false) :
    jsTrimChars cs = cs := by
  rw [jsTrimChars, dropWhile_false _ _ h, dropWhile_false, List.reverse_reverse]
  intro c hc
  exact h c (List.mem_reverse.mp hc)

lemma replaceFirstChar_id (sep rep : Char) (cs : List Char) (h : sep ∉ cs) :
    replaceFirstChar sep rep cs = cs := by
  induction cs with
  | nil => rfl
  | cons c cs ih =>
      have hcs : ¬ c = sep := by
        intro hc
        subst hc
        exact h (List.mem_cons_self c cs)
      rw [replaceFirstChar, if_neg hcs]
      rw [ih (fun hc => h (List.mem_cons_of_mem c hc))]

lemma numToStrChars_ne_nil (q : ℚ) : numToStrChars q ≠ [] := by
  obtain ⟨-, -, hne⟩ := numBody_spec q
  rw [numToStrChars]
  by_cases hneg : q < 0
  · rw [if_pos hneg]
    exact List.cons_ne_nil _ _
  · rw [if_neg hneg]
    exact hne

lemma numToStrChars_no_ws (q : ℚ) :
    ∀ c ∈ numToStrChars q, isJsWhitespace c = false :=
  fun c hc => (numChar_not_special c (numToStrChars_chars q c hc)).1

lemma numToStr_data (q : ℚ) : (numToStr q).data = numToStrChars q := rfl

/-- `Number()` of the rendered decimal string gives back the value. -/
lemma jsNumber_numToStr (q : ℚ) (hdvd : q.den ∣ 10 ^ decExp q.den) :
    jsNumber (numToStr q) = fin q := by
  rw [jsNumber, numToStr_data, jsTrimChars_id _ (numToStrChars_no_ws q)]
  rw [if_neg (by simpa [List.isEmpty_iff] using numToStrChars_ne_nil q)]
  rw [parseDec_numToStr q hdvd]

lemma normalizeNumberCell_numToStr (q : ℚ) (hdvd : q.den ∣ 10 ^ decExp q.den)
    (r c : Nat) :
    normalizeNumberCell (Cell.str (numToStr q)) r c = Except.ok q := by
  have htrim : jsTrim (numToStr q) = numToStr q := by
    rw [jsTrim, numToStr_data, jsTrimChars_id _ (numToStrChars_no_ws q)]
    rfl
  have hnoc : ',' ∉ numToStrChars q := fun hc =>
    ((numChar_not_special _ (numToStrChars_chars q _ hc)).2.1) rfl
  have hrep : jsReplaceFirstComma (numToStr q) = numToStr q := by
    rw [jsReplaceFirstComma, numToStr_data, replaceFirstChar_id _ _ _ hnoc]
    rfl
  rw [normalizeNumberCell]
  rw [htrim, hrep]
  rw [if_neg (by simpa [numToStr_data, List.isEmpty_iff] using numToStrChars_ne_nil q)]
  rw [jsNumber_numToStr q hdvd]

lemma splitOnChar_no_sep (sep : Char) (cs : List Char) (h : sep ∉ cs) :
    splitOnChar sep cs = [cs] := by
  induction cs with
  | nil => rfl
  | cons c cs ih =>
      have hcs : ¬ c = sep := by
        intro hc
        subst hc
        exact h (List.mem_cons_self c cs)
      rw [splitOnChar]
      simp only [if_neg hcs]
      rw [ih (fun hc => h (List.mem_cons_of_mem c hc))]
      rfl

lemma splitOnChar_sep_append (sep : Char) (f t : List Char) (hf : sep ∉ f) :
    splitOnChar sep (f ++ sep :: t) = f :: splitOnChar sep t := by
  induction f with
  | nil =>
      rw [List.nil_append, splitOnChar]
      simp
  | cons c f ih =>
      have hcs : ¬ c = sep := by
        intro hc
        subst hc
        exact hf (List.mem_cons_self c f)
      rw [List.cons_append, splitOnChar]
      simp only [if_neg hcs]
      rw [ih (fun hc => hf (List.mem_cons_of_mem c hc))]
      rfl

lemma splitOnChar_intercalate (sep : Char) (fields : List (List Char))
    (hne : fields ≠ []) (h : ∀ f ∈ fields, sep ∉ f) :
    splitOnChar sep (intercalateChar sep fields) = fields := by
  induction fields with
  | nil => exact absurd rfl hne
  | cons f rest ih =>
      cases rest with
      | nil =>
          show splitOnChar sep (intercalateChar sep [f]) = [f]
          rw [intercalateChar]
          exact splitOnChar_no_sep sep f (h f (List.mem_cons_self f []))
      | cons g t =>
          rw [intercalateChar]
          · rw [splitOnChar_sep_append sep f _ (h f (List.mem_cons_self f (g :: t)))]
            rw [ih (List.cons_ne_nil g t) (fun x hx => h x (List.mem_cons_of_mem f hx))]
          · exact fun hc => List.noConfusion hc

lemma string_mk_data (s : String) : String.mk s.data = s := rfl

lemma data_ne_nil (s : String) (h : s ≠ "") : s.data ≠ [] := by
  intro hc
  apply h
  have : String.mk s.data = String.mk [] := by rw [hc]
  rwa [string_mk_data] at this

lemma validName_trimChars (s : String) (h : jsTrim s = s) :
    jsTrimChars s.data = s.data := congrArg String.data h

lemma cellNonBlank_validName (s : String) (h1 : s ≠ "") (h2 : jsTrim s = s) :
    cellNonBlank (Cell.str s) = true := by
  show (! (jsTrimChars (cellText (Cell.str s)).data).isEmpty) = true
  rw [show cellText (Cell.str s) = s from rfl, validName_trimChars s h2]
  simpa [List.isEmpty_iff] using data_ne_nil s h1

lemma mem_intercalateChar (sep : Char) (fields : List (List Char)) (c : Char)
    (hc : c ∈ intercalateChar sep fields) : c = sep ∨ ∃ f ∈ fields, c ∈ f := by
  induction fields with
  | nil => cases hc
  | cons f rest ih =>
      cases rest with
      | nil =>
          rw [intercalateChar] at hc
          exact Or.inr ⟨f, List.mem_cons_self f [], hc⟩
      | cons g t =>
          rw [intercalateChar] at hc
          · rcases List.mem_append.mp hc with h | h
            · exact Or.inr ⟨f, List.mem_cons_self f (g :: t), h⟩
            · rcases List.mem_cons.mp h with h1 | h2
              · exact Or.inl h1
              · rcases ih h2 with h3 | ⟨f2, hf2, hcf2⟩
                · exact Or.inl h3
                · exact Or.inr ⟨f2, List.mem_cons_of_mem f hf2, hcf2⟩
          · exact fun hc2 => List.noConfusion hc2

lemma readDelimited_eq (lines : List (List Char)) (hne : lines ≠ [])
    (hnl : ∀ l ∈ lines, '\n' ∉ l)
    (hkeep : ∀ l ∈ lines,
      rowNonBlank ((splitOnChar ',' l).map fun f => Cell.str (String.mk f)) = true) :
    readDelimited (String.mk (intercalateChar '\n' lines)) =
      lines.map (fun l => (splitOnChar ',' l).map fun f => Cell.str (String.mk f)) := by
  rw [readDelimited]
  rw [show (String.mk (intercalateChar '\n' lines)).data = intercalateChar '\n' lines
    from rfl]
  rw [splitOnChar_intercalate '\n' lines hne hnl]
  rw [List.filter_eq_self.mpr]
  intro row hrow
  obtain ⟨l, hl, rfl⟩ := List.mem_map.mp hrow
  exact hkeep l hl

lemma parseRowValues_complete (row : List Cell) (ri : Nat) :
    ∀ (k c : Nat) (out : List ℚ), out.length = k →
      (∀ t < k, normalizeNumberCell (row.getD (c + t + 1) Cell.undef) (ri + 2) (c + t + 2) =
        Except.ok (out.getD t 0)) →
      parseRowValues row ri c k = Except.ok out := by
  intro k
  induction k with
  | zero =>
      intro c out hlen _
      rw [List.length_eq_zero] at hlen
      subst hlen
      rfl
  | succ k ih =>
      intro c out hlen hent
      cases out with
      | nil => cases hlen
      | cons v out =>
          rw [parseRowValues]
          have h0 := hent 0 (Nat.succ_pos k)
          rw [Nat.add_zero] at h0
          rw [h0]
          rw [ih (c + 1) out (by simpa using hlen) ?_]
          · rfl
          · intro t ht
            have := hent (t + 1) (Nat.succ_lt_succ ht)
            have e1 : c + (t + 1) + 1 = c + 1 + t + 1 := by omega
            have e2 : c + (t + 1) + 2 = c + 1 + t + 2 := by omega
            rw [e1, e2] at this
            simpa using this

lemma parseBodyRows_complete (vars2 : List String) :
    ∀ (rs : List (List Cell)) (j : Nat) (ms : List (List ℚ)), ms.length = rs.length →
      (∀ t < rs.length,
        jsTrim (cellText ((rs.getD t []).getD 0 Cell.undef)) = vars2.getD (j + t) "" ∧
        parseRowValues (rs.getD t []) (j + t) 0 vars2.length = Except.ok (ms.getD t [])) →
      parseBodyRows vars2 rs j = Except.ok ms := by
  intro rs
  induction rs with
  | nil =>
      intro j ms hlen _
      have hnil : ms = [] := List.length_eq_zero.mp (by simpa using hlen)
      rw [hnil]
      rfl
  | cons row rs ih =>
      intro j ms hlen hent
      cases ms with
      | nil => cases hlen
      | cons m ms =>
          rw [parseBodyRows]
          obtain ⟨hlbl, hpv⟩ := hent 0 (Nat.succ_pos rs.length)
          rw [Nat.add_zero] at hlbl hpv
          simp only [List.getD_cons_zero] at hlbl hpv
          rw [if_neg (fun hc => hc.2 hlbl)]
          rw [hpv]
          rw [ih (j + 1) ms (by simpa using hlen) ?_]
          · rfl
          · intro t ht
            have := hent (t + 1) (Nat.succ_lt_succ ht)
            have e1 : j + (t + 1) = j + 1 + t := by omega
            rw [e1] at this
            simpa using this

lemma parseVariablesRows_named (r0 : List Cell) (rest : List (List Cell))
    (hhd : r0.map (fun c => jsToLower (jsTrim (cellText c))) = ["name"]) :
    parseVariablesRows (r0 :: rest) =
      (rest.map fun row => jsTrim (cellText (row.getD 0 Cell.undef))).filter
        fun v => ! v.data.isEmpty := by
  rw [parseVariablesRows]
  rw [if_neg (by simp)]
  simp only [List.headD_cons, hhd]
  rw [show (["name"].findIdx? fun h => h == "name" || h == "variable" || h == "nombre") =
    some 0 from by decide]
  rfl

/-- The `variables.csv` content round-trips to the variable list. -/
lemma parseCsvVariables_roundtrip (d : ParsedDataset) (hv : ValidDataset d) :
    parseCsvVariables (datasetToCsvFiles d).1 = Except.ok d.vars := by
  obtain ⟨hn, hmlen, hrows, hnames, hdec, hdiag⟩ := hv
  have hnamefacts : ∀ n ∈ d.vars, n ≠ "" ∧ jsTrim n = n ∧ ',' ∉ n.data ∧ '\n' ∉ n.data :=
    fun n hmem => hnames n hmem
  have hfile : (datasetToCsvFiles d).1 =
      String.mk (intercalateChar '\n' ("name".data :: d.vars.map String.data)) := rfl
  have hrd : readDelimited (datasetToCsvFiles d).1 =
      [Cell.str "name"] :: d.vars.map (fun n => [Cell.str n]) := by
    rw [hfile, readDelimited_eq]
    · rw [List.map_cons]
      rw [show (splitOnChar ',' "name".data).map (fun f => Cell.str (String.mk f)) =
        [Cell.str "name"] from by decide]
      rw [List.map_map]
      congr 1
      apply List.map_eq_map_iff.mpr
      intro n hnn
      show (splitOnChar ',' n.data).map (fun f => Cell.str (String.mk f)) = [Cell.str n]
      rw [splitOnChar_no_sep ',' n.data (hnamefacts n hnn).2.2.1]
      rw [List.map_cons, List.map_nil, string_mk_data]
    · exact List.cons_ne_nil _ _
    · intro l hl
      rcases List.mem_cons.mp hl with h1 | h2
      · subst h1; decide
      · obtain ⟨n, hnn, rfl⟩ := List.mem_map.mp h2
        exact (hnamefacts n hnn).2.2.2
    · intro l hl
      rcases List.mem_cons.mp hl with h1 | h2
      · subst h1; decide
      · obtain ⟨n, hnn, rfl⟩ := List.mem_map.mp h2
        rw [splitOnChar_no_sep ',' n.data (hnamefacts n hnn).2.2.1]
        rw [List.map_cons, List.map_nil, string_mk_data]
        show ([Cell.str n].any cellNonBlank) = true
        simp only [List.any_cons, List.any_nil, Bool.or_false]
        exact cellNonBlank_validName n (hnamefacts n hnn).1 (hnamefacts n hnn).2.1
  have hpv : parseVariablesRows ([Cell.str "name"] :: d.vars.map fun n => [Cell.str n]) =
      d.vars := by
    rw [parseVariablesRows_named [Cell.str "name"] _ (by decide)]
    rw [List.map_map]
    have hmap : (d.vars.map fun n =>
        jsTrim (cellText (([Cell.str n] : List Cell).getD 0 Cell.undef))) = d.vars := by
      have := List.map_eq_map_iff.mpr (fun n hnn =>
        show jsTrim (cellText (([Cell.str n] : List Cell).getD 0 Cell.undef)) = id n from
          (hnamefacts n hnn).2.1)
      rw [this, List.map_id]
    rw [show ((fun row => jsTrim (cellText (row.getD 0 Cell.undef))) ∘
        fun n => ([Cell.str n] : List Cell)) =
      fun n => jsTrim (cellText (([Cell.str n] : List Cell).getD 0 Cell.undef)) from rfl]
    rw [hmap]
    rw [List.filter_eq_self.mpr]
    intro n hnn
    simpa [List.isEmpty_iff] using data_ne_nil n (hnamefacts n hnn).1
  rw [parseCsvVariables]
  simp only [hrd, hpv]
  rw [if_neg (by simpa [List.isEmpty_iff, ← List.length_pos] using hn)]

lemma mapIdx_eq_range_map (l : List α) (f : Nat → α → β) (d : α) :
    l.mapIdx f = (List.range l.length).map (fun i => f i (l.getD i d)) := by
  apply List.ext_getElem
  · simp
  · intro i h1 h2
    rw [List.getElem_mapIdx, List.getElem_map, List.getElem_range]
    congr 1
    rw [List.getD_eq_getElem?_getD,
      List.getElem?_eq_getElem (by simpa using h1), Option.getD_some]

lemma getD_mem_of_lt (l : List α) (i : Nat) (d : α) (h : i < l.length) :
    l.getD i d ∈ l := by
  rw [List.getD_eq_getElem?_getD, List.getElem?_eq_getElem h, Option.getD_some]
  exact List.getElem_mem h

lemma getD_map_of_lt (l : List α) (f : α → β) (i : Nat) (d : α) (e : β)
    (h : i < l.length) : (l.map f).getD i e = f (l.getD i d) := by
  rw [List.getD_eq_getElem?_getD, List.getElem?_map,
    List.getElem?_eq_getElem h, Option.map_some', Option.getD_some,
    List.getD_eq_getElem?_getD, List.getElem?_eq_getElem h, Option.getD_some]

/-- The `matrix.csv` content round-trips to the dataset. -/
lemma parseCsvMatrix_roundtrip (d : ParsedDataset) (hv : ValidDataset d) :
    parseCsvMatrix (datasetToCsvFiles d).2 =
      Except.ok { vars := d.vars, matrix := d.matrix } := by
  obtain ⟨hn, hmlen, hrowlens, hnames, hdec, hdiag⟩ := hv
  have hvget : ∀ i, i < d.vars.length → validName (d.vars.getD i "") :=
    fun i hi => hnames _ (getD_mem_of_lt d.vars i "" hi)
  have hnocomma : ∀ q : ℚ, ',' ∉ (numToStr q).data := by
    intro q hc
    exact ((numChar_not_special _ (numToStrChars_chars q _ hc)).2.1) rfl
  have hnonl : ∀ q : ℚ, '\n' ∉ (numToStr q).data := by
    intro q hc
    exact ((numChar_not_special _ (numToStrChars_chars q _ hc)).2.2) rfl
  have hB : (d.vars.mapIdx fun idx name => intercalateChar ','
      (name.data :: ((d.matrix.getD idx []).map fun v => (numToStr v).data))) =
    (List.range d.vars.length).map (fun i => intercalateChar ','
      ((d.vars.getD i "").data :: ((d.matrix.getD i []).map fun v => (numToStr v).data))) :=
    mapIdx_eq_range_map d.vars _ ""
  have hfile : (datasetToCsvFiles d).2 = String.mk (intercalateChar '\n'
      (intercalateChar ',' ([] :: d.vars.map String.data) ::
        (List.range d.vars.length).map (fun i => intercalateChar ','
          ((d.vars.getD i "").data ::
            ((d.matrix.getD i []).map fun v => (numToStr v).data))))) := by
    show String.mk (intercalateChar '\n'
      (intercalateChar ',' ([] :: d.vars.map String.data) ::
        d.vars.mapIdx fun idx name => intercalateChar ','
          (name.data :: ((d.matrix.getD idx []).map fun v => (numToStr v).data)))) = _
    rw [hB]
  have hsplitH : splitOnChar ',' (intercalateChar ',' ([] :: d.vars.map String.data)) =
      [] :: d.vars.map String.data := by
    apply splitOnChar_intercalate
    · exact List.cons_ne_nil _ _
    · intro f hf
      rcases List.mem_cons.mp hf with h1 | h2
      · subst h1; simp
      · obtain ⟨n2, hn2, rfl⟩ := List.mem_map.mp h2
        exact (hnames n2 hn2).2.2.1
  have hsplitB : ∀ i, i < d.vars.length →
      splitOnChar ',' (intercalateChar ',' ((d.vars.getD i "").data ::
        ((d.matrix.getD i []).map fun v => (numToStr v).data))) =
      (d.vars.getD i "").data :: ((d.matrix.getD i []).map fun v => (numToStr v).data) := by
    intro i hi
    apply splitOnChar_intercalate
    · exact List.cons_ne_nil _ _
    · intro f hf
      rcases List.mem_cons.mp hf with h1 | h2
      · subst h1
        exact (hvget i hi).2.2.1
      · obtain ⟨v, hvv, rfl⟩ := List.mem_map.mp h2
        exact hnocomma v
  have hrd : readDelimited (datasetToCsvFiles d).2 =
      (Cell.str "" :: d.vars.map Cell.str) ::
        (List.range d.vars.length).map (fun i => Cell.str (d.vars.getD i "") ::
          (d.matrix.getD i []).map fun v => Cell.str (numToStr v)) := by
    rw [hfile, readDelimited_eq]
    · rw [List.map_cons]
      congr 1
      · rw [hsplitH, List.map_cons, List.map_map]
        simp [Function.comp_def, string_mk_data]
      · rw [List.map_map]
        apply List.map_eq_map_iff.mpr
        intro i hi
        show (splitOnChar ',' (intercalateChar ',' _)).map _ = _
        rw [hsplitB i (List.mem_range.mp hi), List.map_cons, string_mk_data, List.map_map]
        simp [Function.comp_def, string_mk_data]
    · exact List.cons_ne_nil _ _
    · intro l hl
      rcases List.mem_cons.mp hl with h1 | h2
      · subst h1
        intro hc
        rcases mem_intercalateChar ',' _ '\n' hc with h3 | ⟨f, hf, hcf⟩
        · cases h3
        · rcases List.mem_cons.mp hf with h4 | h5
          · subst h4; cases hcf
          · obtain ⟨n2, hn2, rfl⟩ := List.mem_map.mp h5
            exact (hnames n2 hn2).2.2.2 hcf
      · obtain ⟨i, hi, rfl⟩ := List.mem_map.mp h2
        intro hc
        rcases mem_intercalateChar ',' _ '\n' hc with h3 | ⟨f, hf, hcf⟩
        · cases h3
        · rcases List.mem_cons.mp hf with h4 | h5
          · subst h4
            exact (hvget i (List.mem_range.mp hi)).2.2.2 hcf
          · obtain ⟨v, hvv, rfl⟩ := List.mem_map.mp h5
            exact hnonl v hcf
    · intro l hl
      rcases List.mem_cons.mp hl with h1 | h2
      · subst h1
        rw [hsplitH]
        obtain ⟨n0, vrest, hcons⟩ := List.exists_cons_of_ne_nil
          (List.length_pos.mp hn : d.vars ≠ [])
        rw [List.map_cons]
        apply List.any_eq_true.mpr
        refine ⟨Cell.str (String.mk n0.data), ?_, ?_⟩
        · apply List.mem_cons_of_mem
          apply List.mem_map.mpr
          exact ⟨n0.data, List.mem_map.mpr ⟨n0, hcons ▸ List.mem_cons_self n0 vrest, rfl⟩, rfl⟩
        · rw [string_mk_data]
          have hvn := hnames n0 (hcons ▸ List.mem_cons_self n0 vrest)
          exact cellNonBlank_validName n0 hvn.1 hvn.2.1
      · obtain ⟨i, hi, rfl⟩ := List.mem_map.mp h2
        rw [hsplitB i (List.mem_range.mp hi), List.map_cons, string_mk_data]
        apply List.any_eq_true.mpr
        refine ⟨Cell.str (d.vars.getD i ""), List.mem_cons_self _ _, ?_⟩
        have hvn := hvget i (List.mem_range.mp hi)
        exact cellNonBlank_validName _ hvn.1 hvn.2.1
  rw [parseCsvMatrix, hrd, parseMatrixTable]
  rw [if_neg (by simp)]
  dsimp only [List.headD_cons]
  have hhc : ((Cell.str "" :: d.vars.map Cell.str).drop 1).map
      (fun c => jsTrim (cellText c)) = d.vars := by
    rw [show (Cell.str "" :: d.vars.map Cell.str).drop 1 = d.vars.map Cell.str from rfl]
    rw [List.map_map]
    simp only [Function.comp_def]
    have := List.map_eq_map_iff.mpr (fun n2 hn2 =>
      show jsTrim (cellText (Cell.str n2)) = id n2 from (hnames n2 hn2).2.1)
    rw [this, List.map_id]
  rw [hhc]
  rw [if_neg (by simpa [List.isEmpty_iff, ← List.length_pos] using hn)]
  rw [validateHeader_ok d.vars 0 (fun n2 hn2 => (hnames n2 hn2).1), ok_bind]
  have hbodyfilter : (((Cell.str "" :: d.vars.map Cell.str) ::
      (List.range d.vars.length).map (fun i => Cell.str (d.vars.getD i "") ::
        (d.matrix.getD i []).map fun v => Cell.str (numToStr v))).drop 1).filter
      rowNonBlank =
      (List.range d.vars.length).map (fun i => Cell.str (d.vars.getD i "") ::
        (d.matrix.getD i []).map fun v => Cell.str (numToStr v)) := by
    rw [show ((Cell.str "" :: d.vars.map Cell.str) ::
      (List.range d.vars.length).map (fun i => Cell.str (d.vars.getD i "") ::
        (d.matrix.getD i []).map fun v => Cell.str (numToStr v))).drop 1 =
      (List.range d.vars.length).map (fun i => Cell.str (d.vars.getD i "") ::
        (d.matrix.getD i []).map fun v => Cell.str (numToStr v)) from rfl]
    apply List.filter_eq_self.mpr
    intro row hrow
    obtain ⟨i, hi, rfl⟩ := List.mem_map.mp hrow
    apply List.any_eq_true.mpr
    refine ⟨Cell.str (d.vars.getD i ""), List.mem_cons_self _ _, ?_⟩
    have hvn := hvget i (List.mem_range.mp hi)
    exact cellNonBlank_validName _ hvn.1 hvn.2.1
  rw [hbodyfilter]
  rw [if_neg (by simp)]
  have hbodyok : parseBodyRows d.vars
      ((List.range d.vars.length).map (fun i => Cell.str (d.vars.getD i "") ::
        (d.matrix.getD i []).map fun v => Cell.str (numToStr v))) 0 =
      Except.ok d.matrix := by
    apply parseBodyRows_complete
    · simp [hmlen]
    · intro t ht
      rw [List.length_map, List.length_range] at ht
      rw [getD_map_range _ _ _ ht]
      constructor
      · rw [Nat.zero_add]
        show jsTrim (cellText (Cell.str (d.vars.getD t ""))) = d.vars.getD t ""
        exact (hvget t ht).2.1
      · rw [Nat.zero_add]
        have hrowlen : (d.matrix.getD t []).length = d.vars.length :=
          hrowlens _ (getD_mem_of_lt d.matrix t [] (by omega))
        apply parseRowValues_complete
        · exact hrowlen
        · intro t2 ht2
          rw [Nat.zero_add]
          show normalizeNumberCell ((Cell.str (d.vars.getD t "") ::
            (d.matrix.getD t []).map fun v => Cell.str (numToStr v)).getD (t2 + 1)
              Cell.undef) (t + 2) (t2 + 2) = _
          rw [List.getD_cons_succ]
          rw [getD_map_of_lt _ _ t2 0 Cell.undef (by omega)]
          have hvmem : (d.matrix.getD t []).getD t2 0 ∈ d.matrix.getD t [] :=
            getD_mem_of_lt _ t2 0 (by omega)
          exact normalizeNumberCell_numToStr _
            (hdec _ (getD_mem_of_lt d.matrix t [] (by omega)) _ hvmem) _ _
  rw [hbodyok, ok_bind]

/-- C4: serializing a valid dataset to the two CSV files and importing
them back through the CSV import path yields the original dataset
exactly — variable order and every numeric value preserved.  (A valid
dataset carries a zero diagonal, which the identity round trip
preserves; neither direction actively rewrites the diagonal.) -/
theorem C4_round_trip (d : ParsedDataset) (hv : ValidDataset d) :
    parseDatasetCsv (datasetToCsvFiles d).1 (datasetToCsvFiles d).2 = Except.ok d := by
  rw [parseDatasetCsv]
  rw [parseCsvVariables_roundtrip d hv, ok_bind]
  rw [parseCsvMatrix_roundtrip d hv, ok_bind]
  rw [if_neg (fun hc => hc rfl)]
  rw [if_neg (by simp)]

theorem C4_witness :
    parseDatasetCsv (datasetToCsvFiles exampleDataset).1
      (datasetToCsvFiles exampleDataset).2 = Except.ok exampleDataset :=
  C4_round_trip exampleDataset (by
    simp only [ValidDataset, validName]
    with_unfolding_all decide)
